import Mathlib

/-!
Shallow embedding of the feature-engineering and alignment pipeline of the
auction-bid prediction repository (files `train.py`, `inference.py`,
`data_extraction.py`).  A pandas `DataFrame` is modelled column-major as a
list of `(column name, cell list)` pairs; duplicate column names are allowed,
as in pandas.  Cell values are strings, rational numbers (standing for finite
floats), booleans (pandas indicator dtype), the two infinities, and a missing
value `na` (covering both `NaN` and `None`).
-/

deriving instance DecidableEq for Except

namespace Autos

/-- A single cell of a data frame. `num` carries a rational standing for a
finite float; `inf`/`negInf` are the non-finite floats; `na` is the missing
value (NaN/None). -/
inductive Cell where
  | str (s : String)
  | num (q : ℚ)
  | bool (b : Bool)
  | inf
  | negInf
  | na
deriving DecidableEq

/-- Column-major data frame: ordered list of named columns. -/
abbrev DataFrame := List (String × List Cell)

/-- Ordered list of column names (`df.columns`). -/
def colNames (df : DataFrame) : List String := df.map Prod.fst

/-- Number of rows: length of the first column (0 for a frame with no
columns). -/
def rowCount (df : DataFrame) : Nat :=
  match df with
  | [] => 0
  | p :: _ => p.2.length

/-- Values of the first column named `name`, `[]` if absent. -/
def colAt (df : DataFrame) (name : String) : List Cell :=
  ((df.find? (fun p => p.1 == name)).map Prod.snd).getD []

/-- Python `str(value)` as used by `.astype(str)`: strings unchanged, numbers
rendered (the exact digit string of a float is immaterial to the verified
claims, so the rational's own rendering stands in), booleans as
`True`/`False`, missing values as `"nan"` (pandas renders NaN that way). -/
def cellToStr : Cell → String
  | .str s => s
  | .num q => toString q
  | .bool b => if b then "True" else "False"
  | .inf => "inf"
  | .negInf => "-inf"
  | .na => "nan"

/-- Whitespace test for Python `str.strip`. -/
def isSpaceChar (c : Char) : Bool :=
  c == ' ' || c == '\t' || c == '\n' || c == '\r'

/-- Python `str.strip()`: drop leading and trailing whitespace. -/
def stripStr (s : String) : String :=
  ⟨((s.data.dropWhile isSpaceChar).reverse.dropWhile isSpaceChar).reverse⟩

/-- One cell under `astype(str).str.strip().replace('', 'OTRO')`
(`train.py` line 41, `inference.py` line 36). -/
def normalizeCatCell (c : Cell) : Cell :=
  let s := stripStr (cellToStr c)
  if s = "" then .str "OTRO" else .str s

/-- Categorical attribute list (`train.py` lines 32-36, `inference.py`
lines 27-31; the two lists are identical). -/
def categorical_vars : List String :=
  ["TIPO", "MARCA", "MODELO", "COMB", "COLOR",
   "CILINDESCRIPCION", "TRACCIONDESCRIPCION",
   "UNIDADNEGOCIODESCRIPCION", "TRANSMISIONDESCRIPCION"]

/-- One iteration of the normalization loop: if the column exists, rewrite its
values in place; otherwise append a constant `'OTRO'` column
(`train.py` lines 39-43, `inference.py` lines 34-38). -/
def normStep (df : DataFrame) (col : String) : DataFrame :=
  if df.any (fun p => p.1 == col) then
    df.map (fun p => if p.1 == col then (p.1, p.2.map normalizeCatCell) else p)
  else
    df ++ [(col, List.replicate (rowCount df) (Cell.str "OTRO"))]

/-- The whole categorical normalization loop.  In Python this mutates the
caller's frame in place; here it returns the frame state the loop leaves
behind. -/
def normalizeCats (df : DataFrame) : DataFrame :=
  categorical_vars.foldl normStep df

/-- Code-point lexicographic order on char lists (Python string `<`). -/
def charListLt : List Char → List Char → Bool
  | [], [] => false
  | [], _ :: _ => true
  | _ :: _, [] => false
  | a :: as, b :: bs => if a < b then true else if b < a then false else charListLt as bs

/-- Python string strict order. -/
def strLt (a b : String) : Bool := charListLt a.data b.data

/-- Insertion into a sorted string list. -/
def insertSorted (s : String) : List String → List String
  | [] => [s]
  | t :: ts => if strLt t s then t :: insertSorted s ts else s :: t :: ts

/-- Insertion sort of strings (ascending), modelling the sorted category
order `pd.get_dummies` uses for its levels. -/
def sortStr : List String → List String
  | [] => []
  | s :: ss => insertSorted s (sortStr ss)

/-- Indicator columns produced by `pd.get_dummies` for one source column with
`drop_first=True`: sorted unique categories, first category dropped, one
boolean column `name_category` per kept category. -/
def dummiesFor (name : String) (vs : List Cell) : List (String × List Cell) :=
  ((sortStr (vs.map cellToStr).dedup).drop 1).map
    (fun cat => (name ++ "_" ++ cat,
      vs.map (fun v => Cell.bool (cellToStr v == cat))))

/-- `pd.get_dummies(df, columns=columns, drop_first=True)`
(`train.py` line 46, `inference.py` line 41): the non-encoded columns keep
their original order, followed by the dummy columns of each encoded column in
the order of `columns`. -/
def getDummies (df : DataFrame) (columns : List String) : DataFrame :=
  df.filter (fun p => !(columns.contains p.1)) ++
    columns.flatMap (fun c =>
      match df.find? (fun p => p.1 == c) with
      | some p => dummiesFor c p.2
      | none => [])

/-- Normalization followed by one-hot encoding: the categorical pass shared by
training (`train.py` lines 38-46) and inference (`inference.py` lines 33-41). -/
def passCatEnc (df : DataFrame) : DataFrame :=
  getDummies (normalizeCats df) categorical_vars

/-- Value of a decimal digit list, most significant first. -/
def digitsToNat (cs : List Char) : Nat :=
  cs.foldl (fun n c => n * 10 + (c.toNat - 48)) 0

/-- Model of the numeric parser behind `pd.to_numeric`: optional surrounding
whitespace, optional sign, decimal digits with an optional fractional part.
(Finite decimal literals only; special spellings such as `inf`/`nan` and
exponents are below this embedding's level of abstraction.) -/
def parseNumeric (s : String) : Option ℚ :=
  let t := (stripStr s).data
  let signBody : Int × List Char :=
    match t with
    | '-' :: rest => (-1, rest)
    | '+' :: rest => (1, rest)
    | cs => (1, cs)
  let intPart := signBody.2.takeWhile Char.isDigit
  let rest := signBody.2.drop intPart.length
  match rest with
  | [] =>
      if intPart.isEmpty then none
      else some (mkRat (signBody.1 * digitsToNat intPart) 1)
  | '.' :: frac =>
      if frac.all Char.isDigit && !(intPart.isEmpty && frac.isEmpty) then
        some (mkRat
          (signBody.1 * (digitsToNat intPart * 10 ^ frac.length + digitsToNat frac))
          (10 ^ frac.length))
      else none
  | _ => none

/-- One cell under `pd.to_numeric(col, errors="coerce").fillna(0.0)`
(`train.py` line 84, `inference.py` line 78): parseable values become that
number, non-parseable strings and missing values become `0.0`; the
non-finite floats pass through untouched (neither coercion failures nor NA). -/
def coerceCell : Cell → Cell
  | .num q => .num q
  | .bool b => .num (if b then 1 else 0)
  | .inf => .inf
  | .negInf => .negInf
  | .na => .num 0
  | .str s =>
      match parseNumeric s with
      | some q => .num q
      | none => .num 0

/-- One iteration of the numeric conversion loop: only columns present in the
frame are rewritten (`train.py` lines 82-84, `inference.py` lines 76-78). -/
def coerceStep (df : DataFrame) (col : String) : DataFrame :=
  if df.any (fun p => p.1 == col) then
    df.map (fun p => if p.1 == col then (p.1, p.2.map coerceCell) else p)
  else df

/-- The whole numeric conversion loop over the declared numeric columns. -/
def coerceNumericas (numVars : List String) (df : DataFrame) : DataFrame :=
  numVars.foldl coerceStep df

/-- Python `range(-15, dia_remate)` (`train.py` line 49, as a function of the
cutoff day). -/
def dias_train (dia_remate : Int) : List Int :=
  (List.range (dia_remate + 15).toNat).map (fun i : Nat => -15 + (i : Int))

/-- Python `range(-15, dia_remate)` (`inference.py` line 44). -/
def dias_inferencia (dia_remate : Int) : List Int :=
  (List.range (dia_remate + 15).toNat).map (fun i : Nat => -15 + (i : Int))

/-- Python `range(-15, dia_remate)` (`data_extraction.py` lines 56 and 303). -/
def dias_query (dia_remate : Int) : List Int :=
  (List.range (dia_remate + 15).toNat).map (fun i : Nat => -15 + (i : Int))

/-- Series column name `f"{prefix}{abs(d)}"` as built in `train.py`
lines 51-56 and `inference.py` lines 46-51. -/
def seriesName (pre : String) (d : Int) : String := pre ++ toString d.natAbs

/-- Pivot alias `f"... AS {prefijo}{abs(d)}"` name part, from
`data_extraction.py` lines 23-26 and 41 (`_generar_columnas_pivot_kpi` and
`_generar_select_columnas`). -/
def pivotName (prefijo : String) (d : Int) : String := prefijo ++ toString d.natAbs

/-- `cols_ofertas` (`train.py` line 51). -/
def cols_ofertas (c : Int) : List String := (dias_train c).map (seriesName "OFERTAS")

/-- `cols_cav` (`train.py` line 52). -/
def cols_cav (c : Int) : List String := (dias_train c).map (seriesName "CAV")

/-- `cols_insp` (`train.py` line 53). -/
def cols_insp (c : Int) : List String := (dias_train c).map (seriesName "INSP")

/-- `cols_mi` (`train.py` line 54). -/
def cols_mi (c : Int) : List String := (dias_train c).map (seriesName "MI")

/-- `cols_vt` (`train.py` line 55). -/
def cols_vt (c : Int) : List String := (dias_train c).map (seriesName "VT")

/-- `cols_vu` (`train.py` line 56). -/
def cols_vu (c : Int) : List String := (dias_train c).map (seriesName "VU")

/-- `series_cols` (`train.py` line 58, identically `inference.py` line 53). -/
def series_cols (c : Int) : List String :=
  cols_ofertas c ++ cols_cav c ++ cols_insp c ++ cols_mi c ++ cols_vt c ++ cols_vu c

/-- `kpi_actual` (`train.py` lines 61-68, `inference.py` lines 56-63). -/
def kpi_actual : List String :=
  ["ACUM_DESCARGASCAV", "ACUM_DESCARGASINSPTOTALES", "ACUM_MI",
   "ACUM_VISITAS_TOTALES", "ACUM_VISITAS_UNICAS", "ACUM_OFERTAS"]

/-- `base_numeric` (`train.py` lines 71-76, `inference.py` lines 66-71). -/
def base_numeric : List String :=
  ["AÑO", "KILOMETRAJE", "MINIMO", "MONTOMULTAS", "VPCA",
   "CANT_SIMILARES_EN_REMATE", "HHI_MARCA_REMATE", "CONCENTRACION_TIPO_VPCA",
   "CANT_LOTES_EN_REMATE", "ANTIGÜEDAD_VEHICULO", "PROYECCION_BI"]

/-- `num_vars = base_numeric + kpi_actual + series_cols` (`train.py` line 79,
`inference.py` line 73). -/
def num_vars (c : Int) : List String := base_numeric ++ kpi_actual ++ series_cols c

/-- Identifier columns dropped from the training matrix (`train.py` line 88). -/
def id_cols : List String := ["REMID", "PATENTE", "LOTEID"]

/-- Label-based column selection `df[names]`: for each listed name, all
frame columns bearing it, in frame order (pandas semantics, which duplicates
sections when either side repeats a label). -/
def selectCols (df : DataFrame) (names : List String) : DataFrame :=
  names.flatMap (fun n => df.filter (fun p => p.1 == n))

/-- The encoded and numerically coerced training frame (`train.py`
lines 38-84: normalization, one-hot encoding, numeric conversion). -/
def encodeTrain (data : DataFrame) (c : Int) : DataFrame :=
  coerceNumericas (num_vars c) (getDummies (normalizeCats data) categorical_vars)

/-- `candidate_features` after the presence filter (`train.py` lines 97-98):
the fixed candidate list restricted to columns of the encoded frame. -/
def candidatesPresent (data : DataFrame) (c : Int) : List String :=
  (num_vars c).filter (fun v => (colNames (encodeTrain data c)).contains v)

/-- `to_drop` (`train.py` line 100): the identifier columns that are present,
plus the target. -/
def toDropTrain (data : DataFrame) (c : Int) : List String :=
  id_cols.filter (fun v => (colNames (encodeTrain data c)).contains v) ++ ["OFERTAS"]

/-- `X` after the drop of identifiers and target (`train.py` line 101). -/
def trainDropped (data : DataFrame) (c : Int) : DataFrame :=
  (encodeTrain data c).filter (fun p => !((toDropTrain data c).contains p.1))

/-- `X` after the forced-presence loop (`train.py` lines 104-106): append a
constant `0.0` column for every (present-filtered) candidate feature not
already a column. -/
def trainForced (data : DataFrame) (c : Int) : DataFrame :=
  (candidatesPresent data c).foldl
    (fun d v => if d.any (fun p => p.1 == v) then d
                else d ++ [(v, List.replicate (rowCount d) (Cell.num 0))])
    (trainDropped data c)

/-- The training feature matrix `X` (`train.py` lines 96-111): after drop and
forced presence, reorder with the candidate features first and everything
else after (`X[ordered_numeric + other_cols]`). -/
def trainX (data : DataFrame) (c : Int) : DataFrame :=
  let ordered_numeric :=
    (candidatesPresent data c).filter (fun v => (colNames (trainForced data c)).contains v)
  let other_cols :=
    (colNames (trainForced data c)).filter (fun v => !(ordered_numeric.contains v))
  selectCols (trainForced data c) (ordered_numeric ++ other_cols)

/-- `preprocesar_datos` (`train.py` lines 15-116).  Returns
`(X, y, columnas_features)`, or the `ValueError` message when the target
column is absent from the encoded frame. -/
def preprocesar_datos (data : DataFrame) (dia_remate : Int) :
    Except String (DataFrame × List Cell × List String) :=
  if "OFERTAS" ∈ colNames (encodeTrain data dia_remate) then
    .ok (trainX data dia_remate,
         (colAt (encodeTrain data dia_remate) "OFERTAS").map coerceCell,
         colNames (trainX data dia_remate))
  else
    .error "No se encontró la columna target 'OFERTAS' en el DataFrame."

/-- Helper for column deduplication: drop every column whose name was
already seen, scanning left to right. -/
def dedupAux (seen : List String) : DataFrame → DataFrame
  | [] => []
  | p :: ps =>
      if seen.contains p.1 then dedupAux seen ps
      else p :: dedupAux (p.1 :: seen) ps

/-- Column deduplication `df.loc[:, ~df.columns.duplicated()]`
(`inference.py` line 81): keep the first column of each name, in order. -/
def dedupColsKeepFirst (df : DataFrame) : DataFrame := dedupAux [] df

/-- `df.reindex(columns=names, fill_value=0.0)` (`inference.py` line 85):
exactly the requested columns in the requested order, filling absentees with
a constant `0.0` column. -/
def reindexCols (df : DataFrame) (names : List String) : DataFrame :=
  names.map (fun n =>
    match df.find? (fun p => p.1 == n) with
    | some p => (n, p.2)
    | none => (n, List.replicate (rowCount df) (Cell.num 0)))

/-- The encoded, coerced, column-deduplicated inference frame
(`inference.py` lines 33-81), before alignment. -/
def encodeInferencia (data : DataFrame) (dia_remate : Int) : DataFrame :=
  dedupColsKeepFirst
    (coerceNumericas (num_vars dia_remate)
      (getDummies (normalizeCats data) categorical_vars))

/-- `preprocesar_datos_inferencia` (`inference.py` lines 12-90). -/
def preprocesar_datos_inferencia (data : DataFrame)
    (columnas_entrenamiento : List String) (dia_remate : Int) : DataFrame :=
  reindexCols (encodeInferencia data dia_remate) columnas_entrenamiento

/-- Column assignment `df[name] = values`: overwrite if the name exists,
append otherwise. -/
def setCol (df : DataFrame) (name : String) (vs : List Cell) : DataFrame :=
  if df.any (fun p => p.1 == name) then
    df.map (fun p => if p.1 == name then (p.1, vs) else p)
  else df ++ [(name, vs)]

/-- `cols_final` (`inference.py` lines 151-155). -/
def cols_final : List String :=
  ["REMID", "PATENTE", "LOTEID", "TIPO", "MARCA", "MODELO",
   "AÑO", "COMB", "KILOMETRAJE", "MINIMO", "COLOR",
   "OFERTAS_PREDICHAS_RF", "DIA_REMATE"]

/-- `text_cols` (`inference.py` line 159). -/
def text_cols : List String := ["PATENTE", "TIPO", "MARCA", "MODELO", "COMB", "COLOR"]

/-- `int_cols` (`inference.py` line 164). -/
def int_cols : List String := ["REMID", "LOTEID", "AÑO", "KILOMETRAJE", "DIA_REMATE"]

/-- `float_cols` (`inference.py` line 169). -/
def float_cols : List String := ["MINIMO", "OFERTAS_PREDICHAS_RF"]

/-- Primary key list `pk` (`inference.py` line 175). -/
def pk_subasta : List String := ["REMID", "PATENTE", "LOTEID", "DIA_REMATE"]

/-- `pd.to_numeric(col, errors="coerce")` without any fill: unparseable and
missing values become NA, non-finite floats pass through. -/
def toNumericCell : Cell → Cell
  | .num q => .num q
  | .bool b => .num (if b then 1 else 0)
  | .inf => .inf
  | .negInf => .negInf
  | .na => .na
  | .str s =>
      match parseNumeric s with
      | some q => .num q
      | none => .na

/-- `.round(2)` on one cell. -/
def roundCell2 : Cell → Cell
  | .num q => .num ((round (q * 100) : ℚ) / 100)
  | c => c

/-- `.astype(str)` on one cell. -/
def castTextCell (c : Cell) : Cell := .str (cellToStr c)

/-- `pd.to_numeric(col, errors="coerce").astype("Int64")` on one cell: the
nullable integer cast keeps numbers and NA at this level of abstraction. -/
def castIntCell (c : Cell) : Cell := toNumericCell c

/-- `pd.to_numeric(col, errors="coerce").astype(float).round(2)` on one cell. -/
def castFloatCell (c : Cell) : Cell := roundCell2 (toNumericCell c)

/-- One column-typing loop of `preparar_datos_sql`: rewrite each listed
column that is present (`inference.py` lines 160-172). -/
def castCols (f : Cell → Cell) (cols : List String) (df : DataFrame) : DataFrame :=
  cols.foldl
    (fun d c =>
      if d.any (fun p => p.1 == c) then
        d.map (fun p => if p.1 == c then (p.1, p.2.map f) else p)
      else d) df

/-- Key of row `i` under the listed columns (values via the first column of
each name; `none` past the column's length). -/
def rowKey (df : DataFrame) (names : List String) (i : Nat) : List (Option Cell) :=
  names.map (fun n => (colAt df n).get? i)

/-- Keys of all rows, in row order. -/
def keysOf (df : DataFrame) (names : List String) : List (List (Option Cell)) :=
  (List.range (rowCount df)).map (rowKey df names)

/-- `duplicated(keep='last')` test for position `i` in a key list: some
strictly later position carries the same key. -/
def hasLaterDup {α : Type} [DecidableEq α] (ks : List α) (i : Nat) : Bool :=
  decide (∃ j, j < ks.length ∧ i < j ∧ ks.get? j = ks.get? i)

/-- Keep the elements whose (absolute) index satisfies the mask, preserving
order: boolean-mask row selection `df[mask]`. -/
def filterByIdx {α : Type} (keep : Nat → Bool) : Nat → List α → List α
  | _, [] => []
  | i, a :: as =>
      if keep i then a :: filterByIdx keep (i + 1) as
      else filterByIdx keep (i + 1) as

/-- Row selection by index mask applied to every column. -/
def filterRows (df : DataFrame) (keep : Nat → Bool) : DataFrame :=
  df.map (fun p => (p.1, filterByIdx keep 0 p.2))

/-- `preparar_datos_sql` up to and including the typing loops
(`inference.py` lines 145-172). -/
def sqlTyped (df : DataFrame) (dia_remate : Int) : DataFrame :=
  let d := setCol df "DIA_REMATE" (List.replicate (rowCount df) (Cell.num dia_remate))
  let d := selectCols d (cols_final.filter (fun c => (colNames d).contains c))
  let d := castCols castTextCell text_cols d
  let d := castCols castIntCell int_cols d
  castCols castFloatCell float_cols d

/-- The primary-key deduplication step (`inference.py` lines 174-183): only
when all four key columns are present and at least one row is marked by
`duplicated(subset=pk, keep='last')` are the marked rows removed. -/
def sqlDeduped (df : DataFrame) (dia_remate : Int) : DataFrame :=
  let d := sqlTyped df dia_remate
  if pk_subasta.all (fun c => (colNames d).contains c) then
    let ks := keysOf d pk_subasta
    let n_dups := ((List.range (rowCount d)).filter (fun i => hasLaterDup ks i)).length
    if 0 < n_dups then filterRows d (fun i => !(hasLaterDup ks i)) else d
  else d

/-- `df.replace([inf, -inf], pd.NA)` followed by
`df.where(pd.notnull(df), None)` on one cell; NA and None are both `na` in
this model. -/
def replaceNonFinite : Cell → Cell
  | .inf => .na
  | .negInf => .na
  | c => c

/-- `preparar_datos_sql` (`inference.py` lines 134-189). -/
def preparar_datos_sql (df : DataFrame) (dia_remate : Int) : DataFrame :=
  (sqlDeduped df dia_remate).map (fun p => (p.1, p.2.map replaceNonFinite))

/-- `pipeline_inferencia_completo` (`inference.py` lines 214-256), restricted
to its data flow: the regressor collaborator is a parameter `predictFn`, and
persistence/export sinks are out of scope.  In Python the preprocessing
mutates `data_raw` in place (the normalization loop of
`preprocesar_datos_inferencia` writes into it) and line 244 then adds the
prediction column to that same frame, which the function returns; the pure
model therefore returns the final state of `data_raw`. -/
def pipeline_inferencia_completo (predictFn : DataFrame → List Cell)
    (data_raw : DataFrame) (columnas_features : List String)
    (dia_remate : Int) : DataFrame :=
  let data_procesada := preprocesar_datos_inferencia data_raw columnas_features dia_remate
  let predicciones := predictFn data_procesada
  setCol (normalizeCats data_raw) "OFERTAS_PREDICHAS_RF" predicciones

/-- Specification-side description of "duplicate keys resolved by keeping the
last occurrence": an element survives exactly when no later element carries
the same key. -/
def keepLastBy {α β : Type} [DecidableEq β] (key : α → β) : List α → List α
  | [] => []
  | a :: as =>
      if key a ∈ as.map key then keepLastBy key as else a :: keepLastBy key as

/-- All cells of row `i`, in column order (`none` past a column's length). -/
def rowAll (df : DataFrame) (i : Nat) : List (Option Cell) :=
  df.map (fun p => p.2.get? i)

/-- The rows of a frame, each as its full cell list. -/
def rowsOf (df : DataFrame) : List (List (Option Cell)) :=
  (List.range (rowCount df)).map (rowAll df)

/-- A concrete prediction frame with one duplicated primary key and
non-finite values, used as a witness input. -/
def claimC8Frame : DataFrame :=
  [("REMID", [Cell.num 1, Cell.num 1, Cell.num 2]),
   ("PATENTE", [Cell.str "AA", Cell.str "AA", Cell.str "BB"]),
   ("LOTEID", [Cell.num 7, Cell.num 7, Cell.num 8]),
   ("MINIMO", [Cell.num 10, Cell.num 20, Cell.inf]),
   ("OFERTAS_PREDICHAS_RF", [Cell.num 5, Cell.num 6, Cell.na])]

/-! ## Helper lemmas -/

theorem toDigitsCore_succ_length_pos (f n : ℕ) :
    0 < (Nat.toDigitsCore 10 (f + 1) n []).length := by
  simp only [Nat.toDigitsCore]
  split
  · simp
  · rw [Nat.toDigitsCore_lens_eq]
    exact Nat.succ_pos _

theorem nat_repr_length_pos (n : ℕ) : 0 < (Nat.repr n).length :=
  toDigitsCore_succ_length_pos n n

theorem colAt_of_find?_eq_some {df : DataFrame} {nm : String} {p : String × List Cell}
    (h : df.find? (fun q => q.1 == nm) = some p) : colAt df nm = p.2 := by
  simp [colAt, h]

theorem colAt_of_not_mem {df : DataFrame} {nm : String}
    (h : nm ∉ colNames df) : colAt df nm = [] := by
  have hf : df.find? (fun q => q.1 == nm) = none := by
    rw [List.find?_eq_none]
    intro x hx
    simp only [beq_iff_eq]
    intro he
    exact h (List.mem_map.mpr ⟨x, hx, he⟩)
  simp [colAt, hf]

theorem find?_name_eq_none_iff {df : DataFrame} {nm : String} :
    df.find? (fun q => q.1 == nm) = none ↔ nm ∉ colNames df := by
  rw [List.find?_eq_none]
  constructor
  · intro h hmem
    obtain ⟨p, hp, hpe⟩ := List.mem_map.mp hmem
    exact h p hp (by simp [hpe])
  · intro h x hx
    simp only [beq_iff_eq]
    intro he
    exact h (List.mem_map.mpr ⟨x, hx, he⟩)

theorem find?_filter_of_imp {α : Type} {p q : α → Bool} {l : List α}
    (h : ∀ x ∈ l, p x = true → q x = true) :
    (l.filter q).find? p = l.find? p := by
  induction l with
  | nil => rfl
  | cons a l ih =>
    by_cases hpa : p a = true
    · have hqa : q a = true := h a (List.mem_cons_self a l) hpa
      simp [List.filter_cons, hqa, List.find?, hpa]
    · have hrec := ih (fun x hx => h x (List.mem_cons_of_mem a hx))
      by_cases hqa : q a = true
      · simp [List.filter_cons, hqa, List.find?, hpa, hrec]
      · simp [List.filter_cons, hqa, List.find?, hpa, hrec]

/-! ## Claim C4: the windowed-series day-offset sequence -/

/-- Claim C4: the day-offset sequence `range(-15, c)` is shared verbatim by
training, inference and query generation (so is the column-naming scheme);
it is empty for `c ≤ -15`; for `c > -15` it has exactly `c - (-15)` offsets
in strictly increasing order; membership is exactly the integers from `-15`
up to but excluding `c`; and at `c = -2` it is `[-15, …, -3]` (13 offsets)
with MI-series columns `MI15, …, MI3`. -/
theorem claim_C4 :
    (∀ c : Int, dias_train c = dias_inferencia c ∧ dias_train c = dias_query c
      ∧ ∀ (pre : String) (d : Int), seriesName pre d = pivotName pre d)
    ∧ (∀ c : Int, c ≤ -15 → dias_train c = [])
    ∧ (∀ c : Int, -15 < c →
        ((dias_train c).length : Int) = c - (-15)
        ∧ (dias_train c).Pairwise (· < ·))
    ∧ (∀ c x : Int, x ∈ dias_train c ↔ -15 ≤ x ∧ x < c)
    ∧ dias_train (-2) = [-15, -14, -13, -12, -11, -10, -9, -8, -7, -6, -5, -4, -3]
    ∧ cols_mi (-2) = ["MI15", "MI14", "MI13", "MI12", "MI11", "MI10", "MI9",
        "MI8", "MI7", "MI6", "MI5", "MI4", "MI3"] := by
  refine ⟨fun c => ⟨rfl, rfl, fun _ _ => rfl⟩, ?_, ?_, ?_, by decide, by decide⟩
  · intro c hc
    have h0 : (c + 15).toNat = 0 := by omega
    simp [dias_train, h0]
  · intro c hc
    constructor
    · simp only [dias_train, List.length_map, List.length_range]
      omega
    · refine List.Pairwise.map _ (fun a b hab => ?_) (List.pairwise_lt_range _)
      omega
  · intro c x
    simp only [dias_train, List.mem_map, List.mem_range]
    constructor
    · rintro ⟨i, hi, rfl⟩
      omega
    · rintro ⟨h1, h2⟩
      exact ⟨(x + 15).toNat, by omega, by omega⟩

/-- Witness for C4 at concrete cutoffs. -/
theorem claim_C4_witness :
    dias_train (-20) = []
    ∧ ((dias_train (-2)).length : Int) = (-2 : Int) - (-15)
    ∧ ((-7 : Int) ∈ dias_train (-2)) :=
  ⟨claim_C4.2.1 (-20) (by decide),
   (claim_C4.2.2.1 (-2) (by decide)).1,
   (claim_C4.2.2.2.1 (-2) (-7)).mpr (by decide)⟩

/-! ## Claim C6: numeric coercion -/

theorem coerceCell_coerceCell (c : Cell) : coerceCell (coerceCell c) = coerceCell c := by
  cases c <;> simp [coerceCell]
  case str s => cases h : parseNumeric s <;> simp [coerceCell, h]

theorem colAt_cons (p : String × List Cell) (ps : DataFrame) (nm : String) :
    colAt (p :: ps) nm = if p.1 = nm then p.2 else colAt ps nm := by
  by_cases hp : p.1 = nm
  · rw [colAt, List.find?_cons_of_pos _ (by simpa using hp), if_pos hp]
    rfl
  · rw [colAt, List.find?_cons_of_neg _ (by simpa using hp), if_neg hp]
    rfl

theorem not_mem_of_any_eq_false {df : DataFrame} {nm : String}
    (h : ¬ df.any (fun p => p.1 == nm) = true) : nm ∉ colNames df := by
  intro hmem
  obtain ⟨p, hp, hpe⟩ := List.mem_map.mp hmem
  exact h (List.any_eq_true.mpr ⟨p, hp, by simp [hpe]⟩)

theorem colAt_mapCellCol_other (df : DataFrame) (col nm : String) (f : Cell → Cell)
    (h : col ≠ nm) :
    colAt (df.map (fun p => if p.1 == col then (p.1, p.2.map f) else p)) nm
      = colAt df nm := by
  induction df with
  | nil => rfl
  | cons p ps ih =>
    rw [List.map_cons, colAt_cons, colAt_cons]
    by_cases hpc : p.1 = col
    · have hnm : ¬ p.1 = nm := fun he => h (by rw [← hpc, he])
      rw [if_pos (show (p.1 == col) = true by simpa using hpc)]
      rw [if_neg hnm, if_neg hnm, ih]
    · rw [if_neg (show ¬ (p.1 == col) = true by simpa using hpc)]
      rw [ih]

theorem colAt_mapCellCol_self (df : DataFrame) (nm : String) (f : Cell → Cell) :
    colAt (df.map (fun p => if p.1 == nm then (p.1, p.2.map f) else p)) nm
      = (colAt df nm).map f := by
  induction df with
  | nil => rfl
  | cons p ps ih =>
    rw [List.map_cons, colAt_cons, colAt_cons]
    by_cases hp : p.1 = nm
    · rw [if_pos (show (p.1 == nm) = true by simpa using hp)]
      rw [if_pos hp, if_pos hp]
    · rw [if_neg (show ¬ (p.1 == nm) = true by simpa using hp)]
      rw [if_neg hp, if_neg hp, ih]

theorem colAt_coerceStep_other {df : DataFrame} {col nm : String} (h : col ≠ nm) :
    colAt (coerceStep df col) nm = colAt df nm := by
  unfold coerceStep
  split
  · exact colAt_mapCellCol_other df col nm coerceCell h
  · rfl

theorem colAt_coerceStep_self (df : DataFrame) (nm : String) :
    colAt (coerceStep df nm) nm = (colAt df nm).map coerceCell := by
  unfold coerceStep
  split
  case isTrue hpres => exact colAt_mapCellCol_self df nm coerceCell
  case isFalse hpres =>
    rw [colAt_of_not_mem (not_mem_of_any_eq_false hpres)]
    rfl

theorem colAt_coerceNumericas_not_mem {nv : List String} {df : DataFrame} {nm : String}
    (h : nm ∉ nv) : colAt (coerceNumericas nv df) nm = colAt df nm := by
  induction nv generalizing df with
  | nil => rfl
  | cons v vs ih =>
    have hvm : v ≠ nm := fun he => h (he ▸ List.mem_cons_self v vs)
    calc colAt (coerceNumericas vs (coerceStep df v)) nm
        = colAt (coerceStep df v) nm := ih (fun hm => h (List.mem_cons_of_mem v hm))
      _ = colAt df nm := colAt_coerceStep_other hvm

theorem colAt_coerceNumericas_mem {nv : List String} {df : DataFrame} {nm : String}
    (h : nm ∈ nv) : colAt (coerceNumericas nv df) nm = (colAt df nm).map coerceCell := by
  induction nv generalizing df with
  | nil => cases h
  | cons v vs ih =>
    show colAt (coerceNumericas vs (coerceStep df v)) nm = _
    by_cases hmem : nm ∈ vs
    · rw [ih hmem]
      by_cases hv : v = nm
      · subst hv
        rw [colAt_coerceStep_self]
        rw [List.map_map]
        exact List.map_congr_left (fun a _ => coerceCell_coerceCell a)
      · rw [colAt_coerceStep_other hv]
    · have hv : v = nm := by
        rcases List.mem_cons.mp h with h' | h'
        · exact h'.symm
        · exact absurd h' hmem
      subst hv
      rw [colAt_coerceNumericas_not_mem hmem, colAt_coerceStep_self]

/-- Claim C6: numeric coercion is total and never produces a missing value:
a parseable string becomes its number, every non-parseable string (the empty
string included) and every missing value becomes `0.0`, numbers are kept;
at column level, coercing a declared column maps every cell through
`coerceCell` (a column absent from the frame stays absent — both sides are
empty). The same `coerceNumericas` pass is the coercion stage of both
`encodeTrain` and `encodeInferencia`, so the behaviour is identical in the
training and inference preprocessors. -/
theorem claim_C6 :
    (∀ s q, parseNumeric s = some q → coerceCell (.str s) = .num q)
    ∧ (∀ s, parseNumeric s = none → coerceCell (.str s) = .num 0)
    ∧ coerceCell .na = .num 0
    ∧ parseNumeric "" = none
    ∧ (∀ q, coerceCell (.num q) = .num q)
    ∧ (∀ cl, cl ≠ .inf → cl ≠ .negInf → ∃ q, coerceCell cl = .num q)
    ∧ (∀ (nv : List String) (df : DataFrame) (nm : String), nm ∈ nv →
        colAt (coerceNumericas nv df) nm = (colAt df nm).map coerceCell) := by
  refine ⟨?_, ?_, rfl, by decide, fun _ => rfl, ?_, fun _ _ _ h => colAt_coerceNumericas_mem h⟩
  · intro s q h
    simp [coerceCell, h]
  · intro s h
    simp [coerceCell, h]
  · intro cl h1 h2
    cases cl with
    | str s => cases h : parseNumeric s with
      | none => exact ⟨0, by simp [coerceCell, h]⟩
      | some q => exact ⟨q, by simp [coerceCell, h]⟩
    | num q => exact ⟨q, rfl⟩
    | bool b => exact ⟨if b then 1 else 0, rfl⟩
    | inf => exact absurd rfl h1
    | negInf => exact absurd rfl h2
    | na => exact ⟨0, rfl⟩

/-- Witness for C6 on concrete values: the empty string, a parseable
decimal, and a concrete one-column coercion pass. -/
theorem claim_C6_witness :
    coerceCell (.str "") = .num 0
    ∧ coerceCell (.str "3.5") = .num (mkRat 7 2)
    ∧ colAt (coerceNumericas ["AÑO"]
        [("AÑO", [Cell.str "", Cell.na, Cell.str "2"])]) "AÑO"
        = [Cell.num 0, Cell.num 0, Cell.num (mkRat 2 1)] := by
  refine ⟨claim_C6.2.1 "" (by decide), claim_C6.1 "3.5" (mkRat 7 2) (by decide), ?_⟩
  rw [claim_C6.2.2.2.2.2.2 ["AÑO"] _ "AÑO" (by decide)]
  decide

/-! ## Claim C2: the forced-presence loop in training is dead code -/

/-- Claim C2 (refuting evaluation): on a record set supplying only the
target column, training-mode preprocessing succeeds but returns an empty
feature-name list — no missing candidate feature (e.g. `AÑO`, a fixed
candidate) is synthesized as a `0.0` column, because `train.py` line 98
filters the candidate list down to the columns already present before the
forced-presence loop runs. -/
theorem claim_C2_eval :
    preprocesar_datos [("OFERTAS", [Cell.num 3])] (-15)
      = .ok ([], [Cell.num 3], [])
    ∧ "AÑO" ∈ num_vars (-15) := by
  constructor
  · decide
  · decide

/-! ## Claim C3: column deduplication -/

/-- Claim C3 counterexample: training-mode preprocessing does NOT
deduplicate column names.  With a raw column `TIPO_B` colliding with the
generated indicator of category `B` of `TIPO`, `preprocesar_datos` returns a
feature-name list with `TIPO_B` repeated (four copies: the final label-based
reorder `X[ordered + other]` duplicates each duplicated label again), so the
claimed training-mode dedup-keep-first does not happen. -/
theorem claim_C3_counterexample :
    (preprocesar_datos
        [("TIPO_B", [Cell.str "x", Cell.str "y"]),
         ("TIPO", [Cell.str "A", Cell.str "B"]),
         ("OFERTAS", [Cell.num 1, Cell.num 2])] (-15)).map
      (fun r => r.2.2)
      = .ok ["TIPO_B", "TIPO_B", "TIPO_B", "TIPO_B"]
    ∧ ¬ (["TIPO_B", "TIPO_B", "TIPO_B", "TIPO_B"] : List String).Nodup := by
  constructor
  · decide
  · decide

/-! ## Claim C9: the preprocessors write into the caller's frame -/

theorem mem_colNames_setCol (df : DataFrame) (nm : String) (vs : List Cell) :
    nm ∈ colNames (setCol df nm vs) := by
  unfold setCol
  split
  case isTrue hp =>
    obtain ⟨p, hp1, hp2⟩ := List.any_eq_true.mp hp
    have hfix : colNames (df.map (fun p => if p.1 == nm then (p.1, vs) else p))
        = colNames df := by
      simp only [colNames, List.map_map]
      apply List.map_congr_left
      intro a _
      by_cases h : a.1 = nm <;> simp [h]
    rw [hfix]
    exact List.mem_map.mpr ⟨p, hp1, by simpa using hp2⟩
  case isFalse =>
    simp [colNames]

/-- Claim C9: the pipeline's returned frame always carries the
`OFERTAS_PREDICHAS_RF` column; on a concrete raw frame the categorical
normalization rewrites the caller's frame (stripping values and synthesizing
`OTRO` columns), and the pipeline's returned frame — the final state of the
mutated `data_raw` — differs from the input, which did not contain the
prediction column. -/
theorem claim_C9 :
    (∀ (pf : DataFrame → List Cell) (df : DataFrame) (S1 : List String) (c : Int),
      "OFERTAS_PREDICHAS_RF" ∈ colNames (pipeline_inferencia_completo pf df S1 c))
    ∧ normalizeCats [("MARCA", [Cell.str " Ford "]), ("X", [Cell.num 1])]
        ≠ [("MARCA", [Cell.str " Ford "]), ("X", [Cell.num 1])]
    ∧ pipeline_inferencia_completo (fun _ => [Cell.num 7])
        [("MARCA", [Cell.str " Ford "]), ("X", [Cell.num 1])] ["MARCA_Ford"] (-2)
        ≠ [("MARCA", [Cell.str " Ford "]), ("X", [Cell.num 1])]
    ∧ "OFERTAS_PREDICHAS_RF"
        ∉ colNames [("MARCA", [Cell.str " Ford "]), ("X", [Cell.num 1])] := by
  refine ⟨?_, by decide, by decide, by decide⟩
  intro pf df S1 c
  exact mem_colNames_setCol _ _ _

/-! ## Claim C1: inference-time alignment -/

/-- Claim C1: for every persisted feature-name list `S1` and every raw
inference record set `R2`, the aligned frame's column list equals `S1`
exactly in membership and order; every `S1` column absent from the freshly
encoded frame is the constant `0.0` column, and every present one carries
the encoded column's values (so every encoded column outside `S1` is
dropped).  The aligner is total — no error is raised. -/
theorem claim_C1 (R2 : DataFrame) (S1 : List String) (c : Int) :
    colNames (preprocesar_datos_inferencia R2 S1 c) = S1
    ∧ (∀ n ∈ S1, n ∉ colNames (encodeInferencia R2 c) →
        (n, List.replicate (rowCount (encodeInferencia R2 c)) (Cell.num 0))
          ∈ preprocesar_datos_inferencia R2 S1 c)
    ∧ (∀ n ∈ S1, n ∈ colNames (encodeInferencia R2 c) →
        (n, colAt (encodeInferencia R2 c) n) ∈ preprocesar_datos_inferencia R2 S1 c) := by
  refine ⟨?_, ?_, ?_⟩
  · show colNames (reindexCols (encodeInferencia R2 c) S1) = S1
    unfold reindexCols colNames
    rw [List.map_map]
    have hfix : ∀ n ∈ S1,
        (Prod.fst ∘ fun n =>
          match (encodeInferencia R2 c).find? (fun p => p.1 == n) with
          | some p => (n, p.2)
          | none => (n, List.replicate (rowCount (encodeInferencia R2 c)) (Cell.num 0))) n
          = id n := by
      intro n _
      cases h : (encodeInferencia R2 c).find? (fun p => p.1 == n) <;> simp [h]
    rw [List.map_congr_left hfix, List.map_id]
  · intro n hn hnot
    have hf : (encodeInferencia R2 c).find? (fun p => p.1 == n) = none :=
      find?_name_eq_none_iff.mpr hnot
    show (n, _) ∈ reindexCols (encodeInferencia R2 c) S1
    unfold reindexCols
    exact List.mem_map.mpr ⟨n, hn, by simp [hf]⟩
  · intro n hn hmem
    cases hf : (encodeInferencia R2 c).find? (fun p => p.1 == n) with
    | none => exact absurd (find?_name_eq_none_iff.mp hf) (by simpa using hmem)
    | some p =>
      show (n, _) ∈ reindexCols (encodeInferencia R2 c) S1
      unfold reindexCols
      exact List.mem_map.mpr ⟨n, hn, by simp [hf, colAt_of_find?_eq_some hf]⟩

/-- Witness for C1 on a concrete raw set with an unseen brand: the schema is
reproduced exactly, the absent `AÑO` column is synthesized as `0.0`, and the
present indicator column keeps its encoded values. -/
theorem claim_C1_witness :
    colNames (preprocesar_datos_inferencia
        [("MARCA", [Cell.str "FORD", Cell.str "NEWBRAND"])]
        ["AÑO", "MARCA_NEWBRAND"] (-15))
      = ["AÑO", "MARCA_NEWBRAND"]
    ∧ ("AÑO", [Cell.num 0, Cell.num 0]) ∈ preprocesar_datos_inferencia
        [("MARCA", [Cell.str "FORD", Cell.str "NEWBRAND"])]
        ["AÑO", "MARCA_NEWBRAND"] (-15) := by
  constructor
  · exact (claim_C1 _ _ _).1
  · have h := (claim_C1 [("MARCA", [Cell.str "FORD", Cell.str "NEWBRAND"])]
      ["AÑO", "MARCA_NEWBRAND"] (-15)).2.1 "AÑO" (by decide) (by decide)
    rwa [show List.replicate
        (rowCount (encodeInferencia [("MARCA", [Cell.str "FORD", Cell.str "NEWBRAND"])] (-15)))
        (Cell.num 0) = [Cell.num 0, Cell.num 0] by decide] at h

/-! ## Series-name disjointness helpers -/

theorem seriesName_length (pre : String) (d : Int) :
    (seriesName pre d).length = pre.length + (Nat.repr d.natAbs).length := by
  rw [seriesName, String.length_append]
  rfl

theorem ne_seriesName_of_heads (t pre : String) (d : Int) (a b : Char)
    (ht : t.data.head? = some a)
    (hp : (pre.data ++ (Nat.repr d.natAbs).data).head? = some b)
    (hab : a ≠ b) : t ≠ seriesName pre d := by
  intro he
  have hs : (seriesName pre d).data.head? = (pre.data ++ (Nat.repr d.natAbs).data).head? := by
    rw [seriesName, String.data_append]
    rfl
  rw [he, hs, hp] at ht
  exact hab (by simpa using ht.symm)

theorem ofertas_ne_seriesName_ofertas (d : Int) : "OFERTAS" ≠ seriesName "OFERTAS" d := by
  intro h
  have hl := congrArg String.length h
  rw [seriesName_length] at hl
  have hp := nat_repr_length_pos d.natAbs
  omega

theorem mem_series_cols {x : String} {c : Int} (h : x ∈ series_cols c) :
    ∃ pre ∈ (["OFERTAS", "CAV", "INSP", "MI", "VT", "VU"] : List String),
      ∃ d : Int, x = seriesName pre d := by
  simp only [series_cols, cols_ofertas, cols_cav, cols_insp, cols_mi, cols_vt, cols_vu,
    List.mem_append, List.mem_map] at h
  rcases h with ((((h | h) | h) | h) | h) | h
  · obtain ⟨d, _, rfl⟩ := h; exact ⟨"OFERTAS", by simp, d, rfl⟩
  · obtain ⟨d, _, rfl⟩ := h; exact ⟨"CAV", by simp, d, rfl⟩
  · obtain ⟨d, _, rfl⟩ := h; exact ⟨"INSP", by simp, d, rfl⟩
  · obtain ⟨d, _, rfl⟩ := h; exact ⟨"MI", by simp, d, rfl⟩
  · obtain ⟨d, _, rfl⟩ := h; exact ⟨"VT", by simp, d, rfl⟩
  · obtain ⟨d, _, rfl⟩ := h; exact ⟨"VU", by simp, d, rfl⟩

theorem target_ids_not_mem_num_vars (c : Int) :
    "OFERTAS" ∉ num_vars c ∧ "REMID" ∉ num_vars c
    ∧ "PATENTE" ∉ num_vars c ∧ "LOTEID" ∉ num_vars c := by
  have hseries : ∀ t : String, t ∈ series_cols c →
      t ≠ "OFERTAS" ∧ t ≠ "REMID" ∧ t ≠ "PATENTE" ∧ t ≠ "LOTEID" := by
    intro t ht
    obtain ⟨pre, hpre, d, rfl⟩ := mem_series_cols ht
    simp only [List.mem_cons, List.mem_singleton, List.not_mem_nil, or_false] at hpre
    rcases hpre with rfl | rfl | rfl | rfl | rfl | rfl
    · exact ⟨fun he => ofertas_ne_seriesName_ofertas d he.symm,
        fun he => ne_seriesName_of_heads "REMID" "OFERTAS" d 'R' 'O' rfl rfl (by decide) he.symm,
        fun he => ne_seriesName_of_heads "PATENTE" "OFERTAS" d 'P' 'O' rfl rfl (by decide) he.symm,
        fun he => ne_seriesName_of_heads "LOTEID" "OFERTAS" d 'L' 'O' rfl rfl (by decide) he.symm⟩
    · exact ⟨fun he => ne_seriesName_of_heads "OFERTAS" "CAV" d 'O' 'C' rfl rfl (by decide) he.symm,
        fun he => ne_seriesName_of_heads "REMID" "CAV" d 'R' 'C' rfl rfl (by decide) he.symm,
        fun he => ne_seriesName_of_heads "PATENTE" "CAV" d 'P' 'C' rfl rfl (by decide) he.symm,
        fun he => ne_seriesName_of_heads "LOTEID" "CAV" d 'L' 'C' rfl rfl (by decide) he.symm⟩
    · exact ⟨fun he => ne_seriesName_of_heads "OFERTAS" "INSP" d 'O' 'I' rfl rfl (by decide) he.symm,
        fun he => ne_seriesName_of_heads "REMID" "INSP" d 'R' 'I' rfl rfl (by decide) he.symm,
        fun he => ne_seriesName_of_heads "PATENTE" "INSP" d 'P' 'I' rfl rfl (by decide) he.symm,
        fun he => ne_seriesName_of_heads "LOTEID" "INSP" d 'L' 'I' rfl rfl (by decide) he.symm⟩
    · exact ⟨fun he => ne_seriesName_of_heads "OFERTAS" "MI" d 'O' 'M' rfl rfl (by decide) he.symm,
        fun he => ne_seriesName_of_heads "REMID" "MI" d 'R' 'M' rfl rfl (by decide) he.symm,
        fun he => ne_seriesName_of_heads "PATENTE" "MI" d 'P' 'M' rfl rfl (by decide) he.symm,
        fun he => ne_seriesName_of_heads "LOTEID" "MI" d 'L' 'M' rfl rfl (by decide) he.symm⟩
    · exact ⟨fun he => ne_seriesName_of_heads "OFERTAS" "VT" d 'O' 'V' rfl rfl (by decide) he.symm,
        fun he => ne_seriesName_of_heads "REMID" "VT" d 'R' 'V' rfl rfl (by decide) he.symm,
        fun he => ne_seriesName_of_heads "PATENTE" "VT" d 'P' 'V' rfl rfl (by decide) he.symm,
        fun he => ne_seriesName_of_heads "LOTEID" "VT" d 'L' 'V' rfl rfl (by decide) he.symm⟩
    · exact ⟨fun he => ne_seriesName_of_heads "OFERTAS" "VU" d 'O' 'V' rfl rfl (by decide) he.symm,
        fun he => ne_seriesName_of_heads "REMID" "VU" d 'R' 'V' rfl rfl (by decide) he.symm,
        fun he => ne_seriesName_of_heads "PATENTE" "VU" d 'P' 'V' rfl rfl (by decide) he.symm,
        fun he => ne_seriesName_of_heads "LOTEID" "VU" d 'L' 'V' rfl rfl (by decide) he.symm⟩
  refine ⟨?_, ?_, ?_, ?_⟩ <;>
    · intro h
      rcases List.mem_append.mp h with h' | h'
      · revert h'; decide
      · first
        | exact (hseries _ h').1 rfl
        | exact (hseries _ h').2.1 rfl
        | exact (hseries _ h').2.2.1 rfl
        | exact (hseries _ h').2.2.2 rfl

/-! ## Column preservation through the encoding stages -/

theorem colAt_append (df df' : DataFrame) (nm : String) :
    colAt (df ++ df') nm = if nm ∈ colNames df then colAt df nm else colAt df' nm := by
  by_cases h : nm ∈ colNames df
  · rw [if_pos h]
    cases hf : df.find? (fun q => q.1 == nm) with
    | none => exact absurd (find?_name_eq_none_iff.mp hf) (by simpa using h)
    | some p' =>
      unfold colAt
      rw [List.find?_append, hf]
      rfl
  · rw [if_neg h]
    unfold colAt
    rw [List.find?_append, find?_name_eq_none_iff.mpr h]
    rfl

theorem colNames_map_of_fst (df : DataFrame)
    (g : String × List Cell → String × List Cell) (hg : ∀ p, (g p).1 = p.1) :
    colNames (df.map g) = colNames df := by
  simp only [colNames, List.map_map]
  exact List.map_congr_left (fun a _ => hg a)

theorem colAt_normStep_other {df : DataFrame} {col nm : String} (h : col ≠ nm) :
    colAt (normStep df col) nm = colAt df nm := by
  unfold normStep
  split
  · exact colAt_mapCellCol_other df col nm normalizeCatCell h
  case isFalse hpres =>
    rw [colAt_append]
    split
    case isTrue => rfl
    case isFalse h2 =>
      rw [colAt_cons, if_neg h, colAt_of_not_mem h2]
      rfl

theorem colAt_foldl_normStep {vs : List String} {df : DataFrame} {nm : String}
    (h : nm ∉ vs) : colAt (vs.foldl normStep df) nm = colAt df nm := by
  induction vs generalizing df with
  | nil => rfl
  | cons v vs ih =>
    rw [List.foldl_cons, ih (fun hm => h (List.mem_cons_of_mem v hm))]
    exact colAt_normStep_other (fun he => h (he ▸ List.mem_cons_self v vs))

theorem mem_colNames_normStep_iff {df : DataFrame} {col nm : String} (h : col ≠ nm) :
    nm ∈ colNames (normStep df col) ↔ nm ∈ colNames df := by
  unfold normStep
  split
  · rw [colNames_map_of_fst]
    intro p
    by_cases hp : (p.1 == col) = true <;> simp [hp]
  · simp only [colNames, List.map_append, List.mem_append, List.map_cons, List.map_nil,
      List.mem_singleton]
    constructor
    · rintro (hm | h2)
      · exact hm
      · exact absurd h2.symm h
    · exact Or.inl

theorem mem_foldl_normStep_iff {vs : List String} {df : DataFrame} {nm : String}
    (h : nm ∉ vs) : nm ∈ colNames (vs.foldl normStep df) ↔ nm ∈ colNames df := by
  induction vs generalizing df with
  | nil => exact Iff.rfl
  | cons v vs ih =>
    rw [List.foldl_cons, ih (fun hm => h (List.mem_cons_of_mem v hm))]
    exact mem_colNames_normStep_iff (fun he => h (he ▸ List.mem_cons_self v vs))

theorem underscore_mem_dummy_name {cname : String} {vs : List Cell}
    {q : String × List Cell} (hq : q ∈ dummiesFor cname vs) : '_' ∈ q.1.data := by
  obtain ⟨cat, _, rfl⟩ := List.mem_map.mp hq
  show '_' ∈ (cname ++ "_" ++ cat).data
  rw [String.data_append, String.data_append]
  exact List.mem_append_left _ (List.mem_append_right _ (by decide))

theorem mem_getDummies {df : DataFrame} {cols : List String} {p : String × List Cell}
    (h : p ∈ getDummies df cols) :
    (p ∈ df ∧ cols.contains p.1 = false)
    ∨ ∃ cname ∈ cols, ∃ vs, p ∈ dummiesFor cname vs := by
  rcases List.mem_append.mp h with hf | hd
  · obtain ⟨hp, hpred⟩ := List.mem_filter.mp hf
    exact Or.inl ⟨hp, by simpa using hpred⟩
  · right
    obtain ⟨cname, hc, hmem⟩ := List.mem_flatMap.mp hd
    cases hfind : df.find? (fun q => q.1 == cname) with
    | none =>
      simp only [hfind] at hmem
      cases hmem
    | some q =>
      simp only [hfind] at hmem
      exact ⟨cname, hc, q.2, hmem⟩

theorem mem_colNames_getDummies_iff {df : DataFrame} {cols : List String} {nm : String}
    (h1 : nm ∉ cols) (h2 : '_' ∉ nm.data) :
    nm ∈ colNames (getDummies df cols) ↔ nm ∈ colNames df := by
  constructor
  · intro hm
    obtain ⟨p, hp, hpe⟩ := List.mem_map.mp hm
    rcases mem_getDummies hp with ⟨hpd, _⟩ | ⟨cname, _, vs, hdm⟩
    · exact List.mem_map.mpr ⟨p, hpd, hpe⟩
    · exact absurd (hpe ▸ underscore_mem_dummy_name hdm) h2
  · intro hm
    obtain ⟨p, hp, hpe⟩ := List.mem_map.mp hm
    refine List.mem_map.mpr ⟨p,
      List.mem_append.mpr (Or.inl (List.mem_filter.mpr ⟨hp, ?_⟩)), hpe⟩
    rw [hpe]
    simp [h1]

theorem colAt_getDummies_other {df : DataFrame} {cols : List String} {nm : String}
    (h1 : nm ∉ cols) (h2 : '_' ∉ nm.data) :
    colAt (getDummies df cols) nm = colAt df nm := by
  unfold getDummies
  rw [colAt_append]
  split
  case isTrue hmem =>
    unfold colAt
    rw [find?_filter_of_imp]
    intro x _ hpx
    have hx : x.1 = nm := by simpa using hpx
    rw [hx]
    simp [h1]
  case isFalse hmem =>
    have hnd : nm ∉ colNames df := by
      intro hmem2
      apply hmem
      obtain ⟨p, hp, hpe⟩ := List.mem_map.mp hmem2
      refine List.mem_map.mpr ⟨p, List.mem_filter.mpr ⟨hp, ?_⟩, hpe⟩
      rw [hpe]
      simp [h1]
    rw [colAt_of_not_mem hnd]
    apply colAt_of_not_mem
    intro hmem3
    obtain ⟨p, hp, hpe⟩ := List.mem_map.mp hmem3
    obtain ⟨cname, _, hmemd⟩ := List.mem_flatMap.mp hp
    cases hfind : df.find? (fun q => q.1 == cname) with
    | none =>
      simp only [hfind] at hmemd
      cases hmemd
    | some q =>
      simp only [hfind] at hmemd
      exact h2 (hpe ▸ underscore_mem_dummy_name hmemd)

theorem colNames_coerceStep (df : DataFrame) (col : String) :
    colNames (coerceStep df col) = colNames df := by
  unfold coerceStep
  split
  · apply colNames_map_of_fst
    intro p
    by_cases hp : (p.1 == col) = true <;> simp [hp]
  · rfl

theorem colNames_coerceNumericas (nv : List String) (df : DataFrame) :
    colNames (coerceNumericas nv df) = colNames df := by
  induction nv generalizing df with
  | nil => rfl
  | cons v vs ih => exact (ih (coerceStep df v)).trans (colNames_coerceStep df v)

theorem ofertas_colNames_encodeTrain (data : DataFrame) (c : Int) :
    "OFERTAS" ∈ colNames (encodeTrain data c) ↔ "OFERTAS" ∈ colNames data := by
  unfold encodeTrain
  rw [colNames_coerceNumericas,
    mem_colNames_getDummies_iff (by decide) (by decide)]
  exact mem_foldl_normStep_iff (by decide)

theorem ofertas_colAt_encodeTrain (data : DataFrame) (c : Int) :
    colAt (encodeTrain data c) "OFERTAS" = colAt data "OFERTAS" := by
  unfold encodeTrain
  rw [colAt_coerceNumericas_not_mem (target_ids_not_mem_num_vars c).1,
    colAt_getDummies_other (by decide) (by decide)]
  exact colAt_foldl_normStep (by decide)

/-! ## Claim C5: the target check and the target vector -/

/-- Claim C5: training-mode preprocessing fails with the schema `ValueError`
exactly when the target column `OFERTAS` is absent from the input record set
(the encoding stages neither remove nor create a column of that name); when
it is present the preprocessor succeeds and `y` is the numeric-coerced input
target column, unparseable and missing values becoming `0.0`. -/
theorem claim_C5 (data : DataFrame) (c : Int) :
    ("OFERTAS" ∉ colNames data →
      preprocesar_datos data c
        = .error "No se encontró la columna target 'OFERTAS' en el DataFrame.")
    ∧ ("OFERTAS" ∈ colNames data →
      preprocesar_datos data c
        = .ok (trainX data c, (colAt data "OFERTAS").map coerceCell,
            colNames (trainX data c))) := by
  constructor
  · intro h
    unfold preprocesar_datos
    rw [if_neg (fun hm => h ((ofertas_colNames_encodeTrain data c).mp hm))]
  · intro h
    unfold preprocesar_datos
    rw [if_pos ((ofertas_colNames_encodeTrain data c).mpr h), ofertas_colAt_encodeTrain]

/-- Witness for C5: a frame without the target errors; a frame whose target
holds an empty string succeeds with `y = [0.0]`. -/
theorem claim_C5_witness :
    preprocesar_datos [("AÑO", [Cell.str "2020"])] (-15)
      = .error "No se encontró la columna target 'OFERTAS' en el DataFrame."
    ∧ preprocesar_datos [("OFERTAS", [Cell.str ""])] (-15)
      = .ok (trainX [("OFERTAS", [Cell.str ""])] (-15), [Cell.num 0],
          colNames (trainX [("OFERTAS", [Cell.str ""])] (-15))) := by
  constructor
  · exact (claim_C5 _ _).1 (by decide)
  · have h := (claim_C5 [("OFERTAS", [Cell.str ""])] (-15)).2 (by decide)
    rwa [show (colAt [("OFERTAS", [Cell.str ""])] "OFERTAS").map coerceCell
        = [Cell.num 0] by decide] at h

/-! ## Claim C10: no target or identifier in the feature schema -/

theorem mem_colNames_selectCols {df : DataFrame} {names : List String} {nm : String}
    (h : nm ∈ colNames (selectCols df names)) : nm ∈ names := by
  obtain ⟨p, hp, hpe⟩ := List.mem_map.mp h
  obtain ⟨n, hn, hpf⟩ := List.mem_flatMap.mp hp
  obtain ⟨_, hpred⟩ := List.mem_filter.mp hpf
  have hx : p.1 = n := by simpa using hpred
  rw [← hpe, hx]
  exact hn

theorem colNames_foldl_force {cand : List String} {X : DataFrame} {nm : String}
    (h : nm ∈ colNames (cand.foldl
      (fun d v => if d.any (fun p => p.1 == v) then d
                  else d ++ [(v, List.replicate (rowCount d) (Cell.num 0))]) X)) :
    nm ∈ colNames X ∨ nm ∈ cand := by
  induction cand generalizing X with
  | nil => exact Or.inl h
  | cons v vs ih =>
    rw [List.foldl_cons] at h
    rcases ih h with h1 | h1
    · by_cases hany : X.any (fun p => p.1 == v) = true
      · rw [if_pos hany] at h1
        exact Or.inl h1
      · rw [if_neg hany] at h1
        rw [colNames, List.map_append] at h1
        rcases List.mem_append.mp h1 with h2 | h2
        · exact Or.inl h2
        · simp only [List.map_cons, List.map_nil, List.mem_singleton] at h2
          exact Or.inr (h2 ▸ List.mem_cons_self v vs)
    · exact Or.inr (List.mem_cons_of_mem v h1)

theorem mem_trainDropped {data : DataFrame} {c : Int} {nm : String}
    (h : nm ∈ colNames (trainDropped data c)) :
    nm ∈ colNames (encodeTrain data c) ∧ nm ∉ toDropTrain data c := by
  obtain ⟨p, hp, hpe⟩ := List.mem_map.mp h
  obtain ⟨hpd, hpred⟩ := List.mem_filter.mp hp
  refine ⟨List.mem_map.mpr ⟨p, hpd, hpe⟩, ?_⟩
  intro hmem
  rw [← hpe] at hmem
  have hnot : p.1 ∉ toDropTrain data c := by simpa using hpred
  exact hnot hmem

/-- Claim C10: a successful training-preprocessing run returns a feature-name
list free of the target `OFERTAS` and of the identifiers `REMID`, `PATENTE`,
`LOTEID` — the drop is not undone by the forced-presence or reorder steps. -/
theorem claim_C10 (data : DataFrame) (c : Int) (X : DataFrame) (y : List Cell)
    (fs : List String) (h : preprocesar_datos data c = .ok (X, y, fs)) :
    "OFERTAS" ∉ fs ∧ "REMID" ∉ fs ∧ "PATENTE" ∉ fs ∧ "LOTEID" ∉ fs := by
  have hfs : fs = colNames (trainX data c) := by
    unfold preprocesar_datos at h
    split at h
    · simp only [Except.ok.injEq, Prod.mk.injEq] at h
      exact h.2.2.symm
    · cases h
  subst hfs
  have key : ∀ nm, nm ∉ num_vars c →
      (nm ∈ colNames (encodeTrain data c) → nm ∈ toDropTrain data c) →
      nm ∉ colNames (trainX data c) := by
    intro nm hnv himp hmem
    unfold trainX at hmem
    have hsel := mem_colNames_selectCols hmem
    rcases List.mem_append.mp hsel with hO | hOther
    · have h2 : nm ∈ candidatesPresent data c := (List.mem_filter.mp hO).1
      unfold candidatesPresent at h2
      exact hnv (List.mem_filter.mp h2).1
    · have h2 : nm ∈ colNames (trainForced data c) := (List.mem_filter.mp hOther).1
      unfold trainForced at h2
      rcases colNames_foldl_force h2 with h3 | h3
      · obtain ⟨henc, hdrop⟩ := mem_trainDropped h3
        exact hdrop (himp henc)
      · unfold candidatesPresent at h3
        exact hnv (List.mem_filter.mp h3).1
  obtain ⟨hOf, hRe, hPa, hLo⟩ := target_ids_not_mem_num_vars c
  refine ⟨key _ hOf ?_, key _ hRe ?_, key _ hPa ?_, key _ hLo ?_⟩
  · intro _
    exact List.mem_append.mpr (Or.inr (by decide))
  · intro hmem
    refine List.mem_append.mpr (Or.inl (List.mem_filter.mpr ⟨by decide, ?_⟩))
    simpa using hmem
  · intro hmem
    refine List.mem_append.mpr (Or.inl (List.mem_filter.mpr ⟨by decide, ?_⟩))
    simpa using hmem
  · intro hmem
    refine List.mem_append.mpr (Or.inl (List.mem_filter.mpr ⟨by decide, ?_⟩))
    simpa using hmem

/-- Witness for C10 at the concrete single-target frame. -/
theorem claim_C10_witness :
    "OFERTAS" ∉ ([] : List String) ∧ "REMID" ∉ ([] : List String)
    ∧ "PATENTE" ∉ ([] : List String) ∧ "LOTEID" ∉ ([] : List String) :=
  claim_C10 [("OFERTAS", [Cell.num 3])] (-15) [] [Cell.num 3] [] (by decide)

/-! ## Claim C3 (amended): deduplication in the inference path -/

theorem dedupAux_names_not_seen : ∀ {df : DataFrame} {seen : List String} {nm : String},
    nm ∈ colNames (dedupAux seen df) → nm ∉ seen := by
  intro df
  induction df with
  | nil => intro seen nm h; cases h
  | cons p ps ih =>
    intro seen nm h
    unfold dedupAux at h
    split at h
    · exact ih h
    case isFalse hc =>
      rcases List.mem_cons.mp h with rfl | h2
      · exact fun hmem => hc (by simpa using hmem)
      · exact fun hmem => ih h2 (List.mem_cons_of_mem _ hmem)

theorem dedupAux_names_nodup : ∀ (df : DataFrame) (seen : List String),
    (colNames (dedupAux seen df)).Nodup := by
  intro df
  induction df with
  | nil => intro seen; exact List.nodup_nil
  | cons p ps ih =>
    intro seen
    unfold dedupAux
    split
    · exact ih seen
    · refine List.nodup_cons.mpr ⟨?_, ih (p.1 :: seen)⟩
      intro hmem
      exact dedupAux_names_not_seen hmem (List.mem_cons_self p.1 seen)

theorem dedupAux_find? : ∀ {df : DataFrame} {seen : List String} {nm : String},
    nm ∉ seen →
    (dedupAux seen df).find? (fun q => q.1 == nm) = df.find? (fun q => q.1 == nm) := by
  intro df
  induction df with
  | nil => intro seen nm _; rfl
  | cons p ps ih =>
    intro seen nm h
    unfold dedupAux
    split
    case isTrue hc =>
      have hne : ¬ (fun q : String × List Cell => q.1 == nm) p = true := by
        simp only [beq_iff_eq]
        intro he
        exact h (he ▸ (by simpa using hc))
      rw [@List.find?_cons_of_neg _ (fun q => q.1 == nm) p ps hne]
      exact ih h
    case isFalse hc =>
      by_cases hp : p.1 = nm
      · rw [@List.find?_cons_of_pos _ (fun q => q.1 == nm) p
            (dedupAux (p.1 :: seen) ps) (by simpa using hp),
          @List.find?_cons_of_pos _ (fun q => q.1 == nm) p ps (by simpa using hp)]
      · rw [@List.find?_cons_of_neg _ (fun q => q.1 == nm) p
            (dedupAux (p.1 :: seen) ps) (by simpa using hp),
          @List.find?_cons_of_neg _ (fun q => q.1 == nm) p ps (by simpa using hp)]
        exact ih (fun hmem => (List.mem_cons.mp hmem).elim (fun he => hp he.symm) h)

/-- Claim C3, amended: the inference preprocessor deduplicates the encoded
frame's columns keeping the first occurrence of each name — afterwards the
column names are pairwise distinct and looking any name up still yields the
first column of that name of the pre-dedup frame.  (Training-mode
preprocessing has no such step; see the counterexample.) -/
theorem claim_C3 (data : DataFrame) (c : Int) :
    (colNames (encodeInferencia data c)).Nodup
    ∧ ∀ nm : String, (encodeInferencia data c).find? (fun q => q.1 == nm)
        = (coerceNumericas (num_vars c)
            (getDummies (normalizeCats data) categorical_vars)).find?
          (fun q => q.1 == nm) :=
  ⟨dedupAux_names_nodup _ [],
   fun _ => dedupAux_find? (List.not_mem_nil _)⟩

/-! ## Claim C7: idempotence of the normalization-and-encoding pass -/

theorem passCatEnc_names_not_cat {df : DataFrame} {p : String × List Cell}
    (hp : p ∈ passCatEnc df) : p.1 ∉ categorical_vars := by
  rcases mem_getDummies hp with ⟨_, hc⟩ | ⟨cname, _, vs, hdm⟩
  · simpa using hc
  · intro hmem
    exact (by decide : ∀ v ∈ categorical_vars, '_' ∉ v.data) p.1 hmem
      (underscore_mem_dummy_name hdm)

theorem rowCount_append_replicate (df : DataFrame) (n : String) (x : Cell) :
    rowCount (df ++ [(n, List.replicate (rowCount df) x)]) = rowCount df := by
  cases df with
  | nil => simp [rowCount]
  | cons p ps => rfl

theorem foldl_normStep_all_absent : ∀ {vs : List String} {df : DataFrame},
    vs.Nodup → (∀ v ∈ vs, v ∉ colNames df) →
    vs.foldl normStep df
      = df ++ vs.map (fun v => (v, List.replicate (rowCount df) (Cell.str "OTRO"))) := by
  intro vs
  induction vs with
  | nil => intro df _ _; simp
  | cons v vs ih =>
    intro df hnd hall
    have habs : v ∉ colNames df := hall v (List.mem_cons_self v vs)
    have hstep : normStep df v
        = df ++ [(v, List.replicate (rowCount df) (Cell.str "OTRO"))] := by
      unfold normStep
      rw [if_neg]
      intro hany
      obtain ⟨p, hp, hpe⟩ := List.any_eq_true.mp hany
      exact habs (List.mem_map.mpr ⟨p, hp, by simpa using hpe⟩)
    rw [List.foldl_cons, hstep, ih (List.nodup_cons.mp hnd).2 ?side]
    · rw [rowCount_append_replicate, List.append_assoc]
      rfl
    case side =>
      intro u hu hmem
      rw [colNames, List.map_append] at hmem
      rcases List.mem_append.mp hmem with h2 | h2
      · exact hall u (List.mem_cons_of_mem v hu) h2
      · simp only [List.map_cons, List.map_nil, List.mem_singleton] at h2
        exact (List.nodup_cons.mp hnd).1 (h2 ▸ hu)

theorem find?_map_mk {vs : List String} {g : String → List Cell} {nm : String}
    (h : nm ∈ vs) :
    (vs.map (fun v => (v, g v))).find? (fun q => q.1 == nm) = some (nm, g nm) := by
  induction vs with
  | nil => cases h
  | cons v vs ih =>
    by_cases hv : v = nm
    · subst hv
      rw [List.map_cons, List.find?_cons_of_pos _ (by simp)]
    · rw [List.map_cons, List.find?_cons_of_neg _ (by simpa using hv)]
      exact ih ((List.mem_cons.mp h).elim (fun he => absurd he.symm hv) id)

theorem dummiesFor_const_OTRO (cname : String) (n : ℕ) :
    dummiesFor cname (List.replicate n (Cell.str "OTRO")) = [] := by
  unfold dummiesFor
  rw [List.map_replicate]
  cases n with
  | zero => rfl
  | succ k =>
    rw [show cellToStr (Cell.str "OTRO") = "OTRO" from rfl,
      List.replicate_dedup (Nat.succ_ne_zero k)]
    rfl

theorem getDummies_append_otros (E : DataFrame)
    (hE : ∀ p ∈ E, p.1 ∉ categorical_vars) (n : ℕ) :
    getDummies (E ++ categorical_vars.map
      (fun v => (v, List.replicate n (Cell.str "OTRO")))) categorical_vars = E := by
  unfold getDummies
  have hfilter : (E ++ categorical_vars.map
        (fun v => (v, List.replicate n (Cell.str "OTRO")))).filter
        (fun p => !(categorical_vars.contains p.1)) = E := by
    rw [List.filter_append]
    have h1 : E.filter (fun p => !(categorical_vars.contains p.1)) = E :=
      List.filter_eq_self.mpr (fun p hp => by simp [hE p hp])
    have h2 : (categorical_vars.map
        (fun v => (v, List.replicate n (Cell.str "OTRO")))).filter
        (fun p => !(categorical_vars.contains p.1)) = [] := by
      rw [List.filter_eq_nil_iff]
      intro q hq
      obtain ⟨v, hv, rfl⟩ := List.mem_map.mp hq
      simp [hv]
    rw [h1, h2, List.append_nil]
  have hdummies : categorical_vars.flatMap (fun c =>
      match (E ++ categorical_vars.map
          (fun v => (v, List.replicate n (Cell.str "OTRO")))).find?
          (fun p => p.1 == c) with
      | some p => dummiesFor c p.2
      | none => []) = [] := by
    rw [List.eq_nil_iff_forall_not_mem]
    intro b hb
    obtain ⟨cname, hc, hmem⟩ := List.mem_flatMap.mp hb
    have hfE : E.find? (fun p => p.1 == cname) = none := by
      rw [List.find?_eq_none]
      intro p hp
      simp only [beq_iff_eq]
      intro he
      exact hE p hp (he ▸ hc)
    have hff : (E ++ categorical_vars.map
        (fun v => (v, List.replicate n (Cell.str "OTRO")))).find?
        (fun p => p.1 == cname)
        = some (cname, List.replicate n (Cell.str "OTRO")) := by
      rw [List.find?_append, hfE, find?_map_mk hc]
      rfl
    rw [hff] at hmem
    simp only [dummiesFor_const_OTRO] at hmem
    cases hmem
  rw [hfilter, hdummies, List.append_nil]

/-- Claim C7: the categorical normalization-and-encoding pass is idempotent —
applied to its own output it returns that output unchanged.  On the output
every categorical attribute is gone (replaced by underscore-bearing
indicator names), so the second pass synthesizes each as a constant `OTRO`
column, whose single category is then dropped entirely by the
`drop_first` encoding, restoring the frame exactly. -/
theorem claim_C7 (df : DataFrame) : passCatEnc (passCatEnc df) = passCatEnc df := by
  have hnames : ∀ p ∈ passCatEnc df, p.1 ∉ categorical_vars :=
    fun p hp => passCatEnc_names_not_cat hp
  have habs : ∀ v ∈ categorical_vars, v ∉ colNames (passCatEnc df) := by
    intro v hv hmem
    obtain ⟨p, hp, hpe⟩ := List.mem_map.mp hmem
    exact hnames p hp (hpe ▸ hv)
  show getDummies (normalizeCats (passCatEnc df)) categorical_vars = passCatEnc df
  rw [show normalizeCats (passCatEnc df)
      = passCatEnc df ++ categorical_vars.map
          (fun v => (v, List.replicate (rowCount (passCatEnc df)) (Cell.str "OTRO")))
    from foldl_normStep_all_absent (by decide) habs]
  exact getDummies_append_otros _ hnames _

/-! ## Claim C8: index-mask filtering and keep-last deduplication -/

theorem filterByIdx_eq {α : Type} (l : List α) : ∀ (f : Nat → Bool) (k : Nat),
    filterByIdx f k l
      = ((List.range l.length).filter (fun i => f (k + i))).filterMap
          (fun i => l.get? i) := by
  induction l with
  | nil => intro f k; rfl
  | cons a as ih =>
    intro f k
    rw [List.length_cons, List.range_succ_eq_map, List.filter_cons]
    simp only [Nat.add_zero]
    rw [List.filter_map]
    have hcomp : ((fun i => f (k + i)) ∘ Nat.succ) = fun i => f ((k + 1) + i) := by
      funext i
      simp only [Function.comp]
      congr 1
      omega
    rw [hcomp]
    unfold filterByIdx
    by_cases hf : f k = true
    · rw [if_pos hf, if_pos hf]
      simp only [List.filterMap_cons, List.get?_cons_zero]
      rw [List.filterMap_map,
        show ((fun i => (a :: as).get? i) ∘ Nat.succ) = fun i => as.get? i from rfl,
        ih f (k + 1)]
    · rw [if_neg hf, if_neg hf]
      rw [List.filterMap_map,
        show ((fun i => (a :: as).get? i) ∘ Nat.succ) = fun i => as.get? i from rfl,
        ih f (k + 1)]

theorem filterByIdx_zero {α : Type} (l : List α) (f : Nat → Bool) :
    filterByIdx f 0 l
      = ((List.range l.length).filter f).filterMap (fun i => l.get? i) := by
  rw [filterByIdx_eq]
  congr 1
  apply List.filter_congr
  intro i _
  rw [Nat.zero_add]

theorem get?_filterMap_total {β : Type} (K : List Nat) (g : Nat → Option β)
    (hg : ∀ i ∈ K, (g i).isSome) : ∀ j, (K.filterMap g).get? j = (K.get? j).bind g := by
  induction K with
  | nil => intro j; rfl
  | cons i K ih =>
    intro j
    obtain ⟨b, hb⟩ := Option.isSome_iff_exists.mp (hg i (List.mem_cons_self i K))
    rw [List.filterMap_cons, hb]
    cases j with
    | zero => simp [hb]
    | succ j =>
      show (K.filterMap g).get? j = (K.get? j).bind g
      exact ih (fun i hi => hg i (List.mem_cons_of_mem _ hi)) j

theorem length_filterMap_total {β : Type} (K : List Nat) (g : Nat → Option β)
    (hg : ∀ i ∈ K, (g i).isSome) : (K.filterMap g).length = K.length := by
  induction K with
  | nil => rfl
  | cons i K ih =>
    obtain ⟨b, hb⟩ := Option.isSome_iff_exists.mp (hg i (List.mem_cons_self i K))
    rw [List.filterMap_cons, hb, List.length_cons, List.length_cons,
      ih (fun i hi => hg i (List.mem_cons_of_mem _ hi))]

theorem map_range_get? {γ : Type} (K : List Nat) (F : Option Nat → γ) :
    (List.range K.length).map (fun i => F (K.get? i)) = K.map (fun j => F (some j)) := by
  induction K with
  | nil => rfl
  | cons j K ih =>
    rw [List.length_cons, List.range_succ_eq_map, List.map_cons, List.map_map, List.map_cons,
      show ((fun i => F ((j :: K).get? i)) ∘ Nat.succ) = fun i => F (K.get? i) from rfl, ih]
    rfl

theorem map_eq_filterMap_get? {γ : Type} (K : List Nat) (l : List γ) (F : Nat → γ)
    (h : ∀ i ∈ K, l.get? i = some (F i)) : K.map F = K.filterMap (fun i => l.get? i) := by
  induction K with
  | nil => rfl
  | cons i K ih =>
    rw [List.map_cons, List.filterMap_cons, h i (List.mem_cons_self i K)]
    rw [ih (fun i hi => h i (List.mem_cons_of_mem _ hi))]

theorem hasLaterDup_zero {κ : Type} [DecidableEq κ] (k : κ) (ks' : List κ) :
    hasLaterDup (k :: ks') 0 = decide (k ∈ ks') := by
  unfold hasLaterDup
  rw [decide_eq_decide]
  constructor
  · rintro ⟨j, hj, hj0, hjeq⟩
    cases j with
    | zero => omega
    | succ j' =>
      rw [List.mem_iff_get?]
      exact ⟨j', by simpa using hjeq⟩
  · intro hmem
    obtain ⟨j', hj'⟩ := List.mem_iff_get?.mp hmem
    have hlt : j' < ks'.length := by
      rcases List.get?_eq_some.mp hj' with ⟨h, _⟩
      exact h
    refine ⟨j' + 1, by simpa using Nat.succ_lt_succ hlt, Nat.succ_pos _, ?_⟩
    simpa using hj'

theorem hasLaterDup_succ {κ : Type} [DecidableEq κ] (k : κ) (ks' : List κ) (i : Nat) :
    hasLaterDup (k :: ks') (i + 1) = hasLaterDup ks' i := by
  unfold hasLaterDup
  rw [decide_eq_decide]
  constructor
  · rintro ⟨j, hj, hij, hjeq⟩
    cases j with
    | zero => omega
    | succ j' =>
      refine ⟨j', by simpa using hj, by omega, ?_⟩
      simpa using hjeq
  · rintro ⟨j', hj', hij', hjeq⟩
    exact ⟨j' + 1, by simpa using Nat.succ_lt_succ hj', by omega, by simpa using hjeq⟩

theorem mem_keepLastBy {α β : Type} [DecidableEq β] (key : α → β) :
    ∀ {l : List α} {b : α}, b ∈ keepLastBy key l → b ∈ l := by
  intro l
  induction l with
  | nil => intro b h; cases h
  | cons a l ih =>
    intro b h
    unfold keepLastBy at h
    split at h
    · exact List.mem_cons_of_mem a (ih h)
    · rcases List.mem_cons.mp h with rfl | h2
      · exact List.mem_cons_self _ _
      · exact List.mem_cons_of_mem a (ih h2)

theorem nodup_map_keepLastBy {α β : Type} [DecidableEq β] (key : α → β) :
    ∀ (l : List α), ((keepLastBy key l).map key).Nodup := by
  intro l
  induction l with
  | nil => exact List.nodup_nil
  | cons a l ih =>
    unfold keepLastBy
    split
    · exact ih
    case isFalse hmem =>
      rw [List.map_cons]
      refine List.nodup_cons.mpr ⟨?_, ih⟩
      intro hk
      obtain ⟨b, hb, hbe⟩ := List.mem_map.mp hk
      exact hmem (List.mem_map.mpr ⟨b, mem_keepLastBy key hb, hbe⟩)

theorem keepLast_core {κ ρ : Type} [DecidableEq κ] :
    ∀ (l : List (κ × ρ)),
    ((List.range l.length).filter
        (fun i => !(hasLaterDup (l.map Prod.fst) i))).filterMap (fun i => l.get? i)
      = keepLastBy Prod.fst l := by
  intro l
  induction l with
  | nil => rfl
  | cons a l' ih =>
    rw [List.length_cons, List.range_succ_eq_map, List.map_cons, List.filter_cons]
    have h0 : (!(hasLaterDup (a.1 :: l'.map Prod.fst) 0))
        = !(decide (a.1 ∈ l'.map Prod.fst)) := by
      rw [hasLaterDup_zero]
    have hshift : ((fun i => !(hasLaterDup (a.1 :: l'.map Prod.fst) i)) ∘ Nat.succ)
        = fun i => !(hasLaterDup (l'.map Prod.fst) i) := by
      funext i
      simp only [Function.comp]
      rw [hasLaterDup_succ]
    rw [List.filter_map, hshift]
    unfold keepLastBy
    by_cases hmem : a.1 ∈ l'.map Prod.fst
    · rw [h0, decide_eq_true hmem]
      rw [if_neg (by simp), if_pos hmem]
      rw [List.filterMap_map]
      rw [show ((fun i => (a :: l').get? i) ∘ Nat.succ) = fun i => l'.get? i from rfl]
      exact ih
    · rw [h0, decide_eq_false hmem]
      rw [if_pos (by simp), if_neg hmem]
      simp only [List.filterMap_cons, List.get?_cons_zero]
      rw [List.filterMap_map,
        show ((fun i => (a :: l').get? i) ∘ Nat.succ) = fun i => l'.get? i from rfl, ih]

theorem rect_self {d : DataFrame} {m : Nat} (h : ∀ p ∈ d, p.2.length = m) :
    ∀ p ∈ d, p.2.length = rowCount d := by
  cases d with
  | nil => intro p hp; cases hp
  | cons q ps =>
    intro p hp
    rw [show rowCount (q :: ps) = q.2.length from rfl,
      h q (List.mem_cons_self q ps)]
    exact h p hp

theorem setCol_replicate_rect (df : DataFrame) (nm : String) (x : Cell)
    (hrect : ∀ p ∈ df, p.2.length = rowCount df) :
    ∀ p ∈ setCol df nm (List.replicate (rowCount df) x), p.2.length = rowCount df := by
  unfold setCol
  split
  · intro p hp
    obtain ⟨q, hq, rfl⟩ := List.mem_map.mp hp
    by_cases hqn : (q.1 == nm) = true
    · rw [if_pos hqn]
      exact List.length_replicate _ _
    · rw [if_neg hqn]
      exact hrect q hq
  · intro p hp
    rcases List.mem_append.mp hp with h1 | h1
    · exact hrect p h1
    · rw [List.mem_singleton.mp h1]
      exact List.length_replicate _ _

theorem mem_colNames_setCol_of_mem {df : DataFrame} {nm n' : String} {vs : List Cell}
    (h : n' ∈ colNames df) : n' ∈ colNames (setCol df nm vs) := by
  unfold setCol
  split
  · rw [colNames_map_of_fst]
    · exact h
    · intro p
      by_cases hp : (p.1 == nm) = true <;> simp [hp]
  · rw [colNames, List.map_append]
    exact List.mem_append.mpr (Or.inl h)

theorem mem_colNames_selectCols_iff {df : DataFrame} {names : List String} {nm : String} :
    nm ∈ colNames (selectCols df names) ↔ nm ∈ names ∧ nm ∈ colNames df := by
  constructor
  · intro h
    obtain ⟨p, hp, hpe⟩ := List.mem_map.mp h
    obtain ⟨n, hn, hpf⟩ := List.mem_flatMap.mp hp
    obtain ⟨hpd, hpred⟩ := List.mem_filter.mp hpf
    have hpn : p.1 = n := by simpa using hpred
    constructor
    · rw [← hpe, hpn]
      exact hn
    · exact List.mem_map.mpr ⟨p, hpd, hpe⟩
  · rintro ⟨hn, hd⟩
    obtain ⟨p, hp, hpe⟩ := List.mem_map.mp hd
    refine List.mem_map.mpr ⟨p,
      List.mem_flatMap.mpr ⟨nm, hn, List.mem_filter.mpr ⟨hp, ?_⟩⟩, hpe⟩
    simpa using hpe

theorem selectCols_rect {df : DataFrame} {names : List String} {m : Nat}
    (h : ∀ p ∈ df, p.2.length = m) : ∀ p ∈ selectCols df names, p.2.length = m := by
  intro p hp
  obtain ⟨n, _, hpf⟩ := List.mem_flatMap.mp hp
  exact h p (List.mem_filter.mp hpf).1

theorem castCols_colNames (f : Cell → Cell) (cs : List String) (df : DataFrame) :
    colNames (castCols f cs df) = colNames df := by
  induction cs generalizing df with
  | nil => rfl
  | cons c cs ih =>
    show colNames (castCols f cs _) = _
    rw [ih]
    dsimp only
    split
    · apply colNames_map_of_fst
      intro p
      by_cases hp : (p.1 == c) = true <;> simp [hp]
    · rfl

theorem castCols_rect {f : Cell → Cell} {cs : List String} {df : DataFrame} {m : Nat}
    (h : ∀ p ∈ df, p.2.length = m) : ∀ p ∈ castCols f cs df, p.2.length = m := by
  induction cs generalizing df with
  | nil => exact h
  | cons c cs ih =>
    apply ih
    intro p hp
    dsimp only at hp
    split at hp
    · obtain ⟨q, hq, rfl⟩ := List.mem_map.mp hp
      by_cases hqn : (q.1 == c) = true
      · rw [if_pos hqn]
        rw [List.length_map]
        exact h q hq
      · rw [if_neg hqn]
        exact h q hq
    · exact h p hp

theorem sqlTyped_rect (df : DataFrame) (c : Int)
    (hrect : ∀ p ∈ df, p.2.length = rowCount df) :
    ∀ p ∈ sqlTyped df c, p.2.length = rowCount df := by
  unfold sqlTyped
  exact castCols_rect (castCols_rect (castCols_rect (selectCols_rect
    (setCol_replicate_rect df "DIA_REMATE" (Cell.num c) hrect))))

theorem mem_colNames_sqlTyped {df : DataFrame} {c : Int} {nm : String}
    (hf : nm ∈ cols_final)
    (hm : nm ∈ colNames (setCol df "DIA_REMATE"
      (List.replicate (rowCount df) (Cell.num c)))) :
    nm ∈ colNames (sqlTyped df c) := by
  unfold sqlTyped
  rw [castCols_colNames, castCols_colNames, castCols_colNames]
  apply mem_colNames_selectCols_iff.mpr
  refine ⟨List.mem_filter.mpr ⟨hf, ?_⟩, hm⟩
  simpa using hm

theorem colAt_filterRows (df : DataFrame) (keep : Nat → Bool) (nm : String) :
    colAt (filterRows df keep) nm = filterByIdx keep 0 (colAt df nm) := by
  unfold filterRows
  induction df with
  | nil => rfl
  | cons p ps ih =>
    rw [List.map_cons, colAt_cons, colAt_cons]
    by_cases hp : p.1 = nm
    · rw [if_pos hp, if_pos hp]
    · rw [if_neg hp, if_neg hp]
      exact ih

theorem colAt_length_of_mem {df : DataFrame} {nm : String} {m : Nat}
    (hrect : ∀ p ∈ df, p.2.length = m) (h : nm ∈ colNames df) :
    (colAt df nm).length = m := by
  cases hf : df.find? (fun q => q.1 == nm) with
  | none => exact absurd (find?_name_eq_none_iff.mp hf) (by simpa using h)
  | some p =>
    rw [colAt_of_find?_eq_some hf]
    exact hrect p (List.mem_of_find?_eq_some hf)

theorem length_keysOf (d : DataFrame) (names : List String) :
    (keysOf d names).length = rowCount d := by
  rw [keysOf, List.length_map, List.length_range]

theorem length_rowsOf (d : DataFrame) :
    (rowsOf d).length = rowCount d := by
  rw [rowsOf, List.length_map, List.length_range]

theorem get?_isSome_of_lt {α : Type} {l : List α} {i : Nat} (h : i < l.length) :
    (l.get? i).isSome := by
  rw [List.get?_eq_get h]
  rfl

/-- Row selection by the `duplicated(keep='last')` mask equals keep-last
deduplication of the (key, row) pairs. -/
theorem filterRows_keepLast (T : DataFrame)
    (hrect : ∀ p ∈ T, p.2.length = rowCount T)
    (hk : ∀ nm ∈ pk_subasta, nm ∈ colNames T) :
    (keysOf (filterRows T (fun i => !(hasLaterDup (keysOf T pk_subasta) i)))
        pk_subasta).zip
      (rowsOf (filterRows T (fun i => !(hasLaterDup (keysOf T pk_subasta) i))))
      = keepLastBy Prod.fst ((keysOf T pk_subasta).zip (rowsOf T)) := by
  have hne : T ≠ [] := by
    intro he
    have := hk "REMID" (by decide)
    rw [he] at this
    cases this
  set n := rowCount T with hn
  set keep := fun i => !(hasLaterDup (keysOf T pk_subasta) i) with hkeepdef
  set K := (List.range n).filter keep with hK
  set L := (List.range n).map
    (fun i => (rowKey T pk_subasta i, rowAll T i)) with hL
  have hKlt : ∀ i ∈ K, i < n := by
    intro i hi
    exact List.mem_range.mp (List.mem_filter.mp hi).1
  -- the key columns all have length n
  have hcolLen : ∀ nm ∈ pk_subasta, (colAt T nm).length = n :=
    fun nm hnm => colAt_length_of_mem hrect (hk nm hnm)
  -- every column of T has length n
  have hallLen : ∀ p ∈ T, p.2.length = n := hrect
  -- the filtered frame D
  set D := filterRows T keep with hD
  -- row count of D is K.length
  have hrcD : rowCount D = K.length := by
    obtain ⟨p₀, ps, rfl⟩ : ∃ p₀ ps, T = p₀ :: ps := by
      cases T with
      | nil => exact absurd rfl hne
      | cons a l => exact ⟨a, l, rfl⟩
    show (filterByIdx keep 0 p₀.2).length = K.length
    rw [filterByIdx_zero,
      show p₀.2.length = n from hallLen p₀ (List.mem_cons_self _ _)]
    exact length_filterMap_total K _ (fun i hi => get?_isSome_of_lt
      ((show p₀.2.length = n from hallLen p₀ (List.mem_cons_self _ _)) ▸ hKlt i hi))
  -- keys of D
  have hkeysD : keysOf D pk_subasta = K.map (rowKey T pk_subasta) := by
    rw [keysOf, hrcD]
    have hstep : ∀ i', rowKey D pk_subasta i'
        = pk_subasta.map
            (fun nm => (K.get? i').bind (fun j => (colAt T nm).get? j)) := by
      intro i'
      unfold rowKey
      apply List.map_congr_left
      intro nm hnm
      rw [hD, colAt_filterRows, filterByIdx_zero, hcolLen nm hnm]
      exact get?_filterMap_total K _
        (fun i hi => get?_isSome_of_lt ((hcolLen nm hnm).symm ▸ hKlt i hi)) i'
    rw [List.map_congr_left (fun i' _ => hstep i')]
    rw [map_range_get? K (fun o => pk_subasta.map
      (fun nm => o.bind (fun j => (colAt T nm).get? j)))]
    apply List.map_congr_left
    intro j _
    rfl
  -- rows of D
  have hrowsD : rowsOf D = K.map (rowAll T) := by
    rw [rowsOf, hrcD]
    have hstep : ∀ i', rowAll D i'
        = T.map (fun p => (K.get? i').bind (fun j => p.2.get? j)) := by
      intro i'
      show (T.map (fun p => (p.1, filterByIdx keep 0 p.2))).map (fun p => p.2.get? i') = _
      rw [List.map_map]
      apply List.map_congr_left
      intro p hp
      show (filterByIdx keep 0 p.2).get? i' = _
      rw [filterByIdx_zero, hallLen p hp]
      exact get?_filterMap_total K _
        (fun i hi => get?_isSome_of_lt ((hallLen p hp).symm ▸ hKlt i hi)) i'
    rw [List.map_congr_left (fun i' _ => hstep i')]
    rw [map_range_get? K (fun o => T.map (fun p => o.bind (fun j => p.2.get? j)))]
    apply List.map_congr_left
    intro j _
    rfl
  -- assemble the left side
  rw [hkeysD, hrowsD, List.zip_map']
  -- assemble the right side
  have hzipT : (keysOf T pk_subasta).zip (rowsOf T) = L := by
    rw [keysOf, rowsOf, hL, List.zip_map']
  rw [hzipT]
  -- apply the core lemma on L
  have hLfst : L.map Prod.fst = keysOf T pk_subasta := by
    rw [hL, keysOf, List.map_map]
    rfl
  have hLlen : L.length = n := by
    rw [hL, List.length_map, List.length_range]
  have hcore := keepLast_core L
  rw [hLlen, hLfst] at hcore
  rw [← hcore]
  apply map_eq_filterMap_get?
  intro i hi
  rw [hL, List.get?_map, List.get?_range (hKlt i hi)]
  rfl

/-- Claim C8: `preparar_datos_sql` resolves primary-key duplicates by keeping
the last occurrence — the (key, row) pairs that survive the
`duplicated(subset=pk, keep='last')` mask are exactly the keep-last
deduplication of the typed frame's (key, row) pairs, and the surviving keys
are pairwise distinct — and the final replace maps every non-finite numeric
value to null: no cell of the uploaded frame is `inf` or `-inf`. -/
theorem claim_C8 (df : DataFrame) (c : Int)
    (hrect : ∀ p ∈ df, p.2.length = rowCount df)
    (h1 : "REMID" ∈ colNames df) (h2 : "PATENTE" ∈ colNames df)
    (h3 : "LOTEID" ∈ colNames df) :
    ((keysOf (sqlDeduped df c) pk_subasta).zip (rowsOf (sqlDeduped df c))
        = keepLastBy Prod.fst
            ((keysOf (sqlTyped df c) pk_subasta).zip (rowsOf (sqlTyped df c))))
    ∧ (keysOf (sqlDeduped df c) pk_subasta).Nodup
    ∧ (∀ p ∈ preparar_datos_sql df c, ∀ v ∈ p.2,
        v ≠ Cell.inf ∧ v ≠ Cell.negInf) := by
  have hTrect : ∀ p ∈ sqlTyped df c, p.2.length = rowCount (sqlTyped df c) :=
    rect_self (sqlTyped_rect df c hrect)
  have hpk : ∀ nm ∈ pk_subasta, nm ∈ colNames (sqlTyped df c) := by
    intro nm hnm
    have hsplit : nm = "REMID" ∨ nm = "PATENTE" ∨ nm = "LOTEID" ∨ nm = "DIA_REMATE" := by
      simpa [pk_subasta] using hnm
    rcases hsplit with rfl | rfl | rfl | rfl
    · exact mem_colNames_sqlTyped (by decide) (mem_colNames_setCol_of_mem h1)
    · exact mem_colNames_sqlTyped (by decide) (mem_colNames_setCol_of_mem h2)
    · exact mem_colNames_sqlTyped (by decide) (mem_colNames_setCol_of_mem h3)
    · exact mem_colNames_sqlTyped (by decide) (mem_colNames_setCol _ _ _)
  have hall : pk_subasta.all (fun x => (colNames (sqlTyped df c)).contains x) = true :=
    List.all_eq_true.mpr (fun x hx => by simpa using hpk x hx)
  have hmain := filterRows_keepLast (sqlTyped df c) hTrect hpk
  have hded : sqlDeduped df c
      = filterRows (sqlTyped df c)
          (fun i => !(hasLaterDup (keysOf (sqlTyped df c) pk_subasta) i)) := by
    unfold sqlDeduped
    rw [if_pos hall]
    by_cases hnd : 0 < ((List.range (rowCount (sqlTyped df c))).filter
        (fun i => hasLaterDup (keysOf (sqlTyped df c) pk_subasta) i)).length
    · rw [if_pos hnd]
    · rw [if_neg hnd]
      -- no duplicates: the mask keeps every row, so filtering is the identity
      have hzero : ((List.range (rowCount (sqlTyped df c))).filter
          (fun i => hasLaterDup (keysOf (sqlTyped df c) pk_subasta) i)) = [] := by
        cases he : ((List.range (rowCount (sqlTyped df c))).filter
            (fun i => hasLaterDup (keysOf (sqlTyped df c) pk_subasta) i)) with
        | nil => rfl
        | cons a l => exact absurd (he ▸ Nat.succ_pos l.length) hnd
      have hkeepall : ∀ i, i < rowCount (sqlTyped df c) →
          (!(hasLaterDup (keysOf (sqlTyped df c) pk_subasta) i)) = true := by
        intro i hi
        have := List.filter_eq_nil_iff.mp hzero i (List.mem_range.mpr hi)
        simpa using this
      unfold filterRows
      rw [List.map_congr_left ?eq, List.map_id]
      case eq =>
        intro p hp
        have hlen : p.2.length = rowCount (sqlTyped df c) := hTrect p hp
        have : filterByIdx (fun i => !(hasLaterDup (keysOf (sqlTyped df c) pk_subasta) i))
            0 p.2 = p.2 := by
          have haux : ∀ (l : List Cell) (k : Nat),
              (∀ i, i < l.length →
                (!(hasLaterDup (keysOf (sqlTyped df c) pk_subasta) (k + i))) = true) →
              filterByIdx (fun i => !(hasLaterDup (keysOf (sqlTyped df c) pk_subasta) i))
                k l = l := by
            intro l
            induction l with
            | nil => intro k _; rfl
            | cons a as ih =>
              intro k hkp
              show (if _ then a :: filterByIdx _ (k + 1) as
                    else filterByIdx _ (k + 1) as) = a :: as
              rw [if_pos (by simpa using hkp 0 (Nat.succ_pos _)), ih (k + 1)]
              intro i hi
              rw [show k + 1 + i = k + (i + 1) by omega]
              exact hkp (i + 1) (by simp only [List.length_cons]; omega)
          apply haux
          intro i hi
          rw [Nat.zero_add]
          exact hkeepall i (hlen ▸ hi)
        rw [this]
        rfl
  refine ⟨hded ▸ hmain, ?_, ?_⟩
  · have hlens : (keysOf (sqlDeduped df c) pk_subasta).length
        ≤ (rowsOf (sqlDeduped df c)).length := by
      rw [length_keysOf, length_rowsOf]
    have hfst := congrArg (List.map Prod.fst) (hded ▸ hmain :
      (keysOf (sqlDeduped df c) pk_subasta).zip (rowsOf (sqlDeduped df c))
        = keepLastBy Prod.fst
            ((keysOf (sqlTyped df c) pk_subasta).zip (rowsOf (sqlTyped df c))))
    rw [List.map_fst_zip _ _ hlens] at hfst
    rw [hfst]
    exact nodup_map_keepLastBy Prod.fst _
  · intro p hp v hv
    obtain ⟨q, _, rfl⟩ := List.mem_map.mp hp
    obtain ⟨w, _, rfl⟩ := List.mem_map.mp hv
    cases w <;> simp [replaceNonFinite]

/-- Witness for C8: a concrete frame with a duplicated primary key and
non-finite values. -/
theorem claim_C8_witness :
    ((keysOf (sqlDeduped claimC8Frame (-2)) pk_subasta).zip
        (rowsOf (sqlDeduped claimC8Frame (-2)))
        = keepLastBy Prod.fst
            ((keysOf (sqlTyped claimC8Frame (-2)) pk_subasta).zip
              (rowsOf (sqlTyped claimC8Frame (-2)))))
    ∧ (keysOf (sqlDeduped claimC8Frame (-2)) pk_subasta).Nodup
    ∧ (∀ p ∈ preparar_datos_sql claimC8Frame (-2), ∀ v ∈ p.2,
        v ≠ Cell.inf ∧ v ≠ Cell.negInf) :=
  claim_C8 claimC8Frame (-2) (by decide) (by decide) (by decide) (by decide)

end Autos
